import Mathlib

/-!
Shallow embedding of the traumabomen sync reconciler
(`src/api/app/routers/sync.py`), its request/response schemas
(`src/api/app/schemas/sync.py`, `src/api/app/schemas/tree.py`), and the shared
CRUD helpers (`src/api/app/routers/crud_helpers.py`).

Modelling conventions:
* UUIDs are opaque identifiers; they are embedded as `Nat`.
* The relational store is an explicit record of row lists (`DB`), one list per
  table the sync router touches.  `db.add` is `++ [row]` / append, `db.delete`
  removes the selected row, queries are `List.find?` / `List.filter` over the
  row lists with the same predicates the SQLAlchemy `select(...).where(...)`
  calls use.
* `HTTPException` raising code becomes `Except ApiError`; the endpoint-level
  `try/commit/except/rollback` becomes a `match` that returns the original
  store on error (`syncTree`).
* `uuid.uuid4()` fresh-id generation is modelled by a supply counter threaded
  through the create phase: the n-th call yields `gen + n`.
-/

namespace Traumabomen

/-- Opaque 128-bit identifier (`uuid.UUID`), embedded as `Nat`. -/
abbrev Id := Nat

/-- Row of the `persons` table (`app/models/person.py`): id, tree_id,
encrypted_data (timestamps are irrelevant to the sync logic and omitted). -/
structure PersonRow where
  id : Id
  treeId : Id
  encryptedData : String
  deriving DecidableEq, Repr

/-- Row of the `relationships` table (constructed in
`sync.py::_phase_creates`): id, tree_id, source_person_id, target_person_id,
encrypted_data. -/
structure RelationshipRow where
  id : Id
  treeId : Id
  sourcePersonId : Id
  targetPersonId : Id
  encryptedData : String
  deriving DecidableEq, Repr

/-- Row shape shared by the linked-entity tables `events`, `classifications`,
`patterns`, `turning_points`, `life_events` (see `app/models/event.py` etc.):
id, tree_id, encrypted_data. -/
structure EntityRow where
  id : Id
  treeId : Id
  encryptedData : String
  deriving DecidableEq, Repr

/-- Row shape of the junction tables `event_persons`,
`classification_persons`, `pattern_persons`, `turning_point_persons`,
`life_event_persons`: (entity id, person id). -/
structure JunctionRow where
  entityId : Id
  personId : Id
  deriving DecidableEq, Repr

/-- The persistence-layer state visible to the sync router: one list of rows
per table. -/
structure DB where
  persons : List PersonRow
  relationships : List RelationshipRow
  events : List EntityRow
  classifications : List EntityRow
  patterns : List EntityRow
  turningPoints : List EntityRow
  lifeEvents : List EntityRow
  eventPersons : List JunctionRow
  classificationPersons : List JunctionRow
  patternPersons : List JunctionRow
  turningPointPersons : List JunctionRow
  lifeEventPersons : List JunctionRow
  deriving DecidableEq, Repr

/-- The errors the sync code raises (`fastapi.HTTPException`):
`validation` is the 422 raised by `_validate_person_ids_in_tree` with the list
of missing person ids in its detail; `notFound` is the 404 raised by the
update phase with the entity kind and offending id in its detail. -/
inductive ApiError where
  | validation (missingPersonIds : List Id)
  | notFound (kind : String) (id : Id)
  deriving DecidableEq, Repr

/-- HTTP status code carried by each error. -/
def ApiError.statusCode : ApiError → Nat
  | .validation _ => 422
  | .notFound _ _ => 404

-- ## Request schemas (`app/schemas/sync.py`, field types from `app/schemas/tree.py`)

/-- `SyncDelete`: `{id: UUID}`. -/
structure SyncDelete where
  id : Id
  deriving DecidableEq, Repr

/-- `SyncPersonCreate(PersonCreate)`: optional client-chosen id plus the
required `encrypted_data: str`. -/
structure SyncPersonCreate where
  id : Option Id := none
  encryptedData : String
  deriving DecidableEq, Repr

/-- `SyncRelationshipCreate(RelationshipCreate)`: optional id, required
source/target person ids and blob. -/
structure SyncRelationshipCreate where
  id : Option Id := none
  sourcePersonId : Id
  targetPersonId : Id
  encryptedData : String
  deriving DecidableEq, Repr

/-- Shared shape of `SyncEventCreate`, `SyncClassificationCreate`,
`SyncTurningPointCreate`, `SyncPatternCreate`: optional id, required
`person_ids: list[UUID]` and `encrypted_data: str`. -/
structure SyncLinkedCreate where
  id : Option Id := none
  personIds : List Id
  encryptedData : String
  deriving DecidableEq, Repr

/-- `SyncPersonUpdate(PersonUpdate)`: required id and — per
`app/schemas/tree.py` lines 33-34 — a *required* `encrypted_data: str`
(the blob is not optional on person updates). -/
structure SyncPersonUpdate where
  id : Id
  encryptedData : String
  deriving DecidableEq, Repr

/-- `SyncRelationshipUpdate(RelationshipUpdate)`: required id; optional
source/target person ids and blob, each defaulting to `None`. -/
structure SyncRelationshipUpdate where
  id : Id
  sourcePersonId : Option Id := none
  targetPersonId : Option Id := none
  encryptedData : Option String := none
  deriving DecidableEq, Repr

/-- Shared shape of `SyncEventUpdate`, `SyncClassificationUpdate`,
`SyncTurningPointUpdate`, `SyncPatternUpdate`: required id; optional
`person_ids` and `encrypted_data`, each defaulting to `None`. -/
structure SyncLinkedUpdate where
  id : Id
  personIds : Option (List Id) := none
  encryptedData : Option String := none
  deriving DecidableEq, Repr

/-- `SyncRequest`: the full batch body; every list defaults to empty. -/
structure SyncRequest where
  personsCreate : List SyncPersonCreate := []
  personsUpdate : List SyncPersonUpdate := []
  personsDelete : List SyncDelete := []
  relationshipsCreate : List SyncRelationshipCreate := []
  relationshipsUpdate : List SyncRelationshipUpdate := []
  relationshipsDelete : List SyncDelete := []
  eventsCreate : List SyncLinkedCreate := []
  eventsUpdate : List SyncLinkedUpdate := []
  eventsDelete : List SyncDelete := []
  classificationsCreate : List SyncLinkedCreate := []
  classificationsUpdate : List SyncLinkedUpdate := []
  classificationsDelete : List SyncDelete := []
  turningPointsCreate : List SyncLinkedCreate := []
  turningPointsUpdate : List SyncLinkedUpdate := []
  turningPointsDelete : List SyncDelete := []
  patternsCreate : List SyncLinkedCreate := []
  patternsUpdate : List SyncLinkedUpdate := []
  patternsDelete : List SyncDelete := []
  deriving DecidableEq, Repr

/-- `SyncResponse`: per-kind created-id lists and updated/deleted counts,
all defaulting to empty/zero. -/
structure SyncResponse where
  personsCreated : List Id := []
  relationshipsCreated : List Id := []
  eventsCreated : List Id := []
  classificationsCreated : List Id := []
  turningPointsCreated : List Id := []
  patternsCreated : List Id := []
  personsUpdated : Nat := 0
  relationshipsUpdated : Nat := 0
  eventsUpdated : Nat := 0
  classificationsUpdated : Nat := 0
  turningPointsUpdated : Nat := 0
  patternsUpdated : Nat := 0
  personsDeleted : Nat := 0
  relationshipsDeleted : Nat := 0
  eventsDeleted : Nat := 0
  classificationsDeleted : Nat := 0
  turningPointsDeleted : Nat := 0
  patternsDeleted : Nat := 0
  deriving DecidableEq, Repr

-- ## Referential validator

/-- The ids of the persons belonging to `treeId` (the rows the validator's
`select` can see). -/
def treePersonIds (db : DB) (treeId : Id) : List Id :=
  (db.persons.filter (fun p => p.treeId == treeId)).map (fun p => p.id)

/-- The `found` set of the validator: the
`select(Person.id).where(Person.tree_id == tree_id, Person.id.in_(person_ids))`
query result. -/
def validateFound (personIds : List Id) (treeId : Id) (db : DB) : List Id :=
  (db.persons.filter
    (fun p => p.treeId == treeId && personIds.contains p.id)).map
      (fun p => p.id)

/-- The `missing = set(person_ids) - found` step of the validator. -/
def missingIds (personIds : List Id) (treeId : Id) (db : DB) : List Id :=
  (personIds.filter
    (fun i => !((validateFound personIds treeId db).contains i))).dedup

/-- `sync.py::_validate_person_ids_in_tree` (textually identical to
`crud_helpers.py::validate_persons_in_tree` and
`events.py::_validate_persons_in_tree`): empty input returns immediately;
otherwise select the ids of persons of this tree among `personIds`, compute
the set difference `set(person_ids) - found`, and raise 422 listing every
missing id if that set is nonempty. -/
def validatePersonIdsInTree (personIds : List Id) (treeId : Id) (db : DB) :
    Except ApiError Unit :=
  if personIds.isEmpty then .ok ()
  else if (missingIds personIds treeId db).isEmpty then .ok ()
  else .error (.validation (missingIds personIds treeId db))

-- ## Delete phase

/-- Projections shared by every tree-scoped table row, so that
`_delete_by_tree`'s generic `model.id` / `model.tree_id` access can be
embedded once. -/
class TreeRow (α : Type) where
  rowId : α → Id
  rowTreeId : α → Id

instance : TreeRow PersonRow := ⟨PersonRow.id, PersonRow.treeId⟩

instance : TreeRow RelationshipRow := ⟨RelationshipRow.id, RelationshipRow.treeId⟩

instance : TreeRow EntityRow := ⟨EntityRow.id, EntityRow.treeId⟩

/-- The `select(model).where(model.id == item.id, model.tree_id == tree_id)`
row predicate. -/
def matchRow [TreeRow α] (id treeId : Id) (r : α) : Bool :=
  TreeRow.rowId r == id && TreeRow.rowTreeId r == treeId

/-- `sync.py::_delete_by_tree`: for each delete item, look the row up by
(id, tree_id); delete it and count it if present, silently skip otherwise. -/
def deleteByTree [TreeRow α] (treeId : Id) :
    List SyncDelete → List α → List α × Nat
  | [], rows => (rows, 0)
  | item :: rest, rows =>
    match rows.find? (matchRow item.id treeId) with
    | some _ =>
      let tail := deleteByTree treeId rest (rows.eraseP (matchRow item.id treeId))
      (tail.1, tail.2 + 1)
    | none => deleteByTree treeId rest rows

/-- `sync.py::_phase_deletes`: delete relationships, classifications, events,
patterns, then persons, recording each count on the response.  (The request's
`turning_points_delete` list is not processed by the source.) -/
def phaseDeletes (body : SyncRequest) (treeId : Id) (db : DB)
    (resp : SyncResponse) : DB × SyncResponse :=
  let rels := deleteByTree treeId body.relationshipsDelete db.relationships
  let clss := deleteByTree treeId body.classificationsDelete db.classifications
  let evs := deleteByTree treeId body.eventsDelete db.events
  let pats := deleteByTree treeId body.patternsDelete db.patterns
  let pers := deleteByTree treeId body.personsDelete db.persons
  ({ db with
      relationships := rels.1
      classifications := clss.1
      events := evs.1
      patterns := pats.1
      persons := pers.1 },
   { resp with
      relationshipsDeleted := rels.2
      classificationsDeleted := clss.2
      eventsDeleted := evs.2
      patternsDeleted := pats.2
      personsDeleted := pers.2 })

-- ## Create phase

/-- `sync.py::_collect_referenced_person_ids`: the person ids referenced by
the batch's relationship, event, classification, and pattern creates, in
source order.  (The source does not visit `turning_points_create`.) -/
def collectReferencedPersonIds (body : SyncRequest) : List Id :=
  (body.relationshipsCreate.map
      (fun item => [item.sourcePersonId, item.targetPersonId])).flatten
    ++ (body.eventsCreate.map (fun item => item.personIds)).flatten
    ++ (body.classificationsCreate.map (fun item => item.personIds)).flatten
    ++ (body.patternsCreate.map (fun item => item.personIds)).flatten

/-- `sync.py::_create_encrypted_entities`, generic over the row constructor
and the item projections: each row gets `item.id or uuid.uuid4()` as its id,
the target tree's id, and the item's blob; the ids are returned in input
order.  Fresh ids are drawn from the supply counter `gen`. -/
def createEncryptedEntities (mk : Id → Id → String → ρ) (getId : β → Option Id)
    (getData : β → String) (treeId : Id) :
    List β → Nat → List ρ × List Id × Nat
  | [], gen => ([], [], gen)
  | item :: rest, gen =>
    let entityId := match getId item with
      | some c => c
      | none => gen
    let gen' := match getId item with
      | some _ => gen
      | none => gen + 1
    let tail := createEncryptedEntities mk getId getData treeId rest gen'
    (mk entityId treeId (getData item) :: tail.1,
     entityId :: tail.2.1, tail.2.2)

/-- The relationship-create loop inside `sync.py::_phase_creates`: each
`Relationship` row gets `item.id or uuid.uuid4()`, the tree's id, the item's
source/target person ids and blob; the ids accumulate in input order. -/
def createRelationships (treeId : Id) :
    List SyncRelationshipCreate → Nat → List RelationshipRow × List Id × Nat
  | [], gen => ([], [], gen)
  | item :: rest, gen =>
    let relId := match item.id with
      | some c => c
      | none => gen
    let gen' := match item.id with
      | some _ => gen
      | none => gen + 1
    let tail := createRelationships treeId rest gen'
    ({ id := relId, treeId := treeId, sourcePersonId := item.sourcePersonId,
       targetPersonId := item.targetPersonId,
       encryptedData := item.encryptedData } :: tail.1,
     relId :: tail.2.1, tail.2.2)

/-- `sync.py::_add_junction_rows`: zip each linked-entity create list with its
created-id list and add one junction row per referenced person. -/
def junctionRowsFor (items : List SyncLinkedCreate) (ids : List Id) :
    List JunctionRow :=
  ((items.zip ids).map
    (fun p => p.1.personIds.map
      (fun pid => ({ entityId := p.2, personId := pid } : JunctionRow)))).flatten

/-- `sync.py::_add_junction_rows` applied to the store: junction rows for the
event, classification, and pattern creates. -/
def addJunctionRows (body : SyncRequest) (resp : SyncResponse) (db : DB) : DB :=
  { db with
      eventPersons :=
        db.eventPersons ++ junctionRowsFor body.eventsCreate resp.eventsCreated
      classificationPersons :=
        db.classificationPersons ++
          junctionRowsFor body.classificationsCreate resp.classificationsCreated
      patternPersons :=
        db.patternPersons ++
          junctionRowsFor body.patternsCreate resp.patternsCreated }

/-- `sync.py::_phase_creates`: insert and flush the batch's persons; collect
every person id referenced by the batch's relationship/event/classification/
pattern creates, deduplicate (`list(set(...))`) and validate them once
against the tree; then insert relationships, events, classifications and
patterns, and finally the junction rows.  (The request's
`turning_points_create` list is not processed by the source.) -/
def phaseCreates (body : SyncRequest) (treeId : Id) (gen : Nat) (db : DB)
    (resp : SyncResponse) : Except ApiError (DB × SyncResponse × Nat) :=
  let pers := createEncryptedEntities
    (fun i t d => ({ id := i, treeId := t, encryptedData := d } : PersonRow))
    (fun item => item.id) (fun item => item.encryptedData) treeId
    body.personsCreate gen
  let db1 := { db with persons := db.persons ++ pers.1 }
  let resp1 := { resp with personsCreated := pers.2.1 }
  match validatePersonIdsInTree (collectReferencedPersonIds body).dedup
      treeId db1 with
  | .error e => .error e
  | .ok _ =>
    let rels := createRelationships treeId body.relationshipsCreate pers.2.2
    let evs := createEncryptedEntities
      (fun i t d => ({ id := i, treeId := t, encryptedData := d } : EntityRow))
      (fun item => item.id) (fun item => item.encryptedData) treeId
      body.eventsCreate rels.2.2
    let clss := createEncryptedEntities
      (fun i t d => ({ id := i, treeId := t, encryptedData := d } : EntityRow))
      (fun item => item.id) (fun item => item.encryptedData) treeId
      body.classificationsCreate evs.2.2
    let pats := createEncryptedEntities
      (fun i t d => ({ id := i, treeId := t, encryptedData := d } : EntityRow))
      (fun item => item.id) (fun item => item.encryptedData) treeId
      body.patternsCreate clss.2.2
    let db2 := { db1 with
        relationships := db1.relationships ++ rels.1
        events := db1.events ++ evs.1
        classifications := db1.classifications ++ clss.1
        patterns := db1.patterns ++ pats.1 }
    let resp2 := { resp1 with
        relationshipsCreated := rels.2.1
        eventsCreated := evs.2.1
        classificationsCreated := clss.2.1
        patternsCreated := pats.2.1 }
    .ok (addJunctionRows body resp2 db2, resp2, pats.2.2)

-- ## Update phase

/-- Mutate the (unique, by primary key) row selected by `p` in place, as
SQLAlchemy does when the update phase assigns to a fetched entity: the first
row satisfying `p` is replaced by `f` of itself. -/
def modifyP (p : α → Bool) (f : α → α) : List α → List α
  | [] => []
  | r :: rs => if p r then f r :: rs else r :: modifyP p f rs

/-- The person-update loop of `sync.py::_phase_updates`: each item's person is
fetched by (id, tree_id); a missing row raises 404 "Person {id} not found";
otherwise `encrypted_data` is overwritten unconditionally and the counter is
incremented. -/
def updatePersons (treeId : Id) :
    List SyncPersonUpdate → DB → Nat → Except ApiError (DB × Nat)
  | [], db, count => .ok (db, count)
  | item :: rest, db, count =>
    match db.persons.find? (matchRow item.id treeId) with
    | none => .error (.notFound "Person" item.id)
    | some _ =>
      let persons' := modifyP (matchRow item.id treeId)
        (fun p => { p with encryptedData := item.encryptedData }) db.persons
      updatePersons treeId rest { db with persons := persons' } (count + 1)

/-- The `if item.encrypted_data is not None` assignment at the end of one
`_update_relationships` iteration: overwrite the blob of the row matched by
(id, tree_id) when a new blob is present. -/
def setRelBlob (item : SyncRelationshipUpdate) (treeId : Id) (db : DB) : DB :=
  match item.encryptedData with
  | none => db
  | some d =>
    let rels := modifyP (matchRow item.id treeId)
      (fun r => { r with encryptedData := d }) db.relationships
    { db with relationships := rels }

/-- The `if item.target_person_id is not None` step of one
`_update_relationships` iteration, followed by the final blob assignment:
validate the new target against the tree, assign it, then overwrite the blob
when present. -/
def applyRelTarget (item : SyncRelationshipUpdate) (treeId : Id) (db1 : DB) :
    Except ApiError DB :=
  match item.targetPersonId with
  | none => .ok (setRelBlob item treeId db1)
  | some tid =>
    match validatePersonIdsInTree [tid] treeId db1 with
    | .error e => .error e
    | .ok _ =>
      let rels := modifyP (matchRow item.id treeId)
        (fun r => { r with targetPersonId := tid }) db1.relationships
      .ok (setRelBlob item treeId { db1 with relationships := rels })

/-- Body of one iteration of `sync.py::_update_relationships` after the fetch
succeeded: validate-and-assign source, then target, then blob, each only when
present. -/
def applyRelUpdate (item : SyncRelationshipUpdate) (treeId : Id) (db : DB) :
    Except ApiError DB :=
  match item.sourcePersonId with
  | none => applyRelTarget item treeId db
  | some sid =>
    match validatePersonIdsInTree [sid] treeId db with
    | .error e => .error e
    | .ok _ =>
      let rels := modifyP (matchRow item.id treeId)
        (fun r => { r with sourcePersonId := sid }) db.relationships
      applyRelTarget item treeId { db with relationships := rels }

/-- `sync.py::_update_relationships`: fetch each relationship by
(id, tree_id), raising 404 "Relationship {id} not found" when absent, then
apply the per-field updates, counting each processed item. -/
def updateRelationships (treeId : Id) :
    List SyncRelationshipUpdate → DB → Nat → Except ApiError (DB × Nat)
  | [], db, count => .ok (db, count)
  | item :: rest, db, count =>
    match db.relationships.find? (matchRow item.id treeId) with
    | none => .error (.notFound "Relationship" item.id)
    | some _ =>
      match applyRelUpdate item treeId db with
      | .error e => .error e
      | .ok db' => updateRelationships treeId rest db' (count + 1)

/-- Table handles for one linked-entity kind, mirroring the per-kind
near-identical functions `_update_events` / `_update_classifications` /
`_update_patterns` (and `crud_helpers.EntityConfig`): the kind's business
label (used in its 404 detail), its entity table and its junction table. -/
structure LinkedKind where
  kindName : String
  getRows : DB → List EntityRow
  setRows : DB → List EntityRow → DB
  getJunctions : DB → List JunctionRow
  setJunctions : DB → List JunctionRow → DB

/-- The `events` / `event_persons` handle (`_update_events`). -/
def eventsKind : LinkedKind where
  kindName := "Event"
  getRows := fun db => db.events
  setRows := fun db rows => { db with events := rows }
  getJunctions := fun db => db.eventPersons
  setJunctions := fun db js => { db with eventPersons := js }

/-- The `classifications` / `classification_persons` handle
(`_update_classifications`). -/
def classificationsKind : LinkedKind where
  kindName := "Classification"
  getRows := fun db => db.classifications
  setRows := fun db rows => { db with classifications := rows }
  getJunctions := fun db => db.classificationPersons
  setJunctions := fun db js => { db with classificationPersons := js }

/-- The `patterns` / `pattern_persons` handle (`_update_patterns`). -/
def patternsKind : LinkedKind where
  kindName := "Pattern"
  getRows := fun db => db.patterns
  setRows := fun db rows => { db with patterns := rows }
  getJunctions := fun db => db.patternPersons
  setJunctions := fun db js => { db with patternPersons := js }

/-- The `turning_points` / `turning_point_persons` handle (used only by the
single-record router via `crud_helpers`; the sync router has no turning-point
update loop). -/
def turningPointsKind : LinkedKind where
  kindName := "Turning point"
  getRows := fun db => db.turningPoints
  setRows := fun db rows => { db with turningPoints := rows }
  getJunctions := fun db => db.turningPointPersons
  setJunctions := fun db js => { db with turningPointPersons := js }

/-- The `life_events` / `life_event_persons` handle (used only by the
single-record router via `crud_helpers`; the sync router has no life-event
fields at all). -/
def lifeEventsKind : LinkedKind where
  kindName := "Life event"
  getRows := fun db => db.lifeEvents
  setRows := fun db rows => { db with lifeEvents := rows }
  getJunctions := fun db => db.lifeEventPersons
  setJunctions := fun db js => { db with lifeEventPersons := js }

/-- The `if item.encrypted_data is not None` assignment of one linked-entity
update iteration: overwrite the blob of the entity matched by (id, tree_id)
when a new blob is present. -/
def setLinkedBlob (k : LinkedKind) (entityId treeId : Id)
    (edata : Option String) (db : DB) : DB :=
  match edata with
  | none => db
  | some d => k.setRows db
      (modifyP (matchRow entityId treeId)
        (fun e => { e with encryptedData := d }) (k.getRows db))

/-- The `person_links.clear()` plus re-insert steps of one linked-entity
update iteration: drop every junction row of the entity, then add one
junction row per given person. -/
def replaceLinkedJunctions (k : LinkedKind) (entityId : Id) (pids : List Id)
    (db : DB) : DB :=
  k.setJunctions db
    (((k.getJunctions db).filter (fun j => !(j.entityId == entityId))) ++
      pids.map (fun pid => ({ entityId := entityId, personId := pid } :
        JunctionRow)))

/-- Body of one iteration of `_update_events` (and its classification/pattern
twins) after the fetch succeeded: overwrite the blob when present; when
`person_ids` is present (even as `[]`), validate it, clear the entity's
junction rows (`person_links.clear()`), and add one junction row per given
person. -/
def applyLinkedUpdate (k : LinkedKind) (item : SyncLinkedUpdate) (treeId : Id)
    (db : DB) : Except ApiError DB :=
  match item.personIds with
  | none => .ok (setLinkedBlob k item.id treeId item.encryptedData db)
  | some pids =>
    match validatePersonIdsInTree pids treeId
        (setLinkedBlob k item.id treeId item.encryptedData db) with
    | .error e => .error e
    | .ok _ =>
      .ok (replaceLinkedJunctions k item.id pids
        (setLinkedBlob k item.id treeId item.encryptedData db))

/-- `sync.py::_update_events` / `_update_classifications` /
`_update_patterns`, parameterized by the kind's table handles: fetch each
entity by (id, tree_id), raising 404 "{kind} {id} not found" when absent,
then apply the blob/person_ids updates, counting each processed item. -/
def updateLinked (k : LinkedKind) (treeId : Id) :
    List SyncLinkedUpdate → DB → Nat → Except ApiError (DB × Nat)
  | [], db, count => .ok (db, count)
  | item :: rest, db, count =>
    match (k.getRows db).find? (matchRow item.id treeId) with
    | none => .error (.notFound k.kindName item.id)
    | some _ =>
      match applyLinkedUpdate k item treeId db with
      | .error e => .error e
      | .ok db' => updateLinked k treeId rest db' (count + 1)

/-- `sync.py::_phase_updates`: persons, then relationships, then events,
classifications, and patterns, accumulating the per-kind updated counts.
(The request's `turning_points_update` list is not processed by the
source.) -/
def phaseUpdates (body : SyncRequest) (treeId : Id) (db : DB)
    (resp : SyncResponse) : Except ApiError (DB × SyncResponse) :=
  match updatePersons treeId body.personsUpdate db 0 with
  | .error e => .error e
  | .ok pu =>
    match updateRelationships treeId body.relationshipsUpdate pu.1 0 with
    | .error e => .error e
    | .ok ru =>
      match updateLinked eventsKind treeId body.eventsUpdate ru.1 0 with
      | .error e => .error e
      | .ok eu =>
        match updateLinked classificationsKind treeId
            body.classificationsUpdate eu.1 0 with
        | .error e => .error e
        | .ok cu =>
          match updateLinked patternsKind treeId body.patternsUpdate cu.1 0 with
          | .error e => .error e
          | .ok patu =>
            .ok (patu.1,
              { resp with
                  personsUpdated := resp.personsUpdated + pu.2
                  relationshipsUpdated := resp.relationshipsUpdated + ru.2
                  eventsUpdated := resp.eventsUpdated + eu.2
                  classificationsUpdated := resp.classificationsUpdated + cu.2
                  patternsUpdated := resp.patternsUpdated + patu.2 })

-- ## Endpoint

/-- The phase pipeline inside `sync.py::sync_tree`'s `try` block: deletes,
then creates, then updates, over one evolving (uncommitted) store. -/
def syncTransaction (body : SyncRequest) (treeId : Id) (gen : Nat) (db : DB) :
    Except ApiError (DB × SyncResponse × Nat) :=
  let d := phaseDeletes body treeId db {}
  match phaseCreates body treeId gen d.1 d.2 with
  | .error e => .error e
  | .ok c =>
    match phaseUpdates body treeId c.1 c.2.1 with
    | .error e => .error e
    | .ok u => .ok (u.1, u.2, c.2.2)

instance {ε α : Type} [DecidableEq ε] [DecidableEq α] :
    DecidableEq (Except ε α)
  | .error a, .error b => decidable_of_iff (a = b) (by simp)
  | .error _, .ok _ => isFalse (by simp)
  | .ok _, .error _ => isFalse (by simp)
  | .ok a, .ok b => decidable_of_iff (a = b) (by simp)

/-- The observable outcome of one sync request: the store after commit or
rollback, and the response or error returned to the caller. -/
structure SyncOutcome where
  db : DB
  result : Except ApiError SyncResponse
  deriving DecidableEq, Repr

/-- `sync.py::sync_tree`: run the three phases and commit, or roll the
transaction back on any raised error, leaving the store as it was and
re-raising the error. -/
def syncTree (body : SyncRequest) (treeId : Id) (gen : Nat) (db : DB) :
    SyncOutcome :=
  match syncTransaction body treeId gen db with
  | .ok res => { db := res.1, result := .ok res.2.1 }
  | .error e => { db := db, result := .error e }

-- ## Single-record linked-entity update (`crud_helpers.py::update_entity`)

/-- `crud_helpers.py::update_entity`: fetch the entity by (id, tree_id),
raising 404 when absent; overwrite the blob when `encrypted_data` is present;
when `person_ids` is present (even as `[]`), validate it, clear the entity's
junction rows and add one junction row per given person; commit. -/
def updateEntity (k : LinkedKind) (entityId treeId : Id)
    (encryptedData : Option String) (personIds : Option (List Id)) (db : DB) :
    Except ApiError DB :=
  match (k.getRows db).find? (matchRow entityId treeId) with
  | none => .error (.notFound k.kindName entityId)
  | some _ =>
    match personIds with
    | none => .ok (setLinkedBlob k entityId treeId encryptedData db)
    | some pids =>
      match validatePersonIdsInTree pids treeId
          (setLinkedBlob k entityId treeId encryptedData db) with
      | .error e => .error e
      | .ok _ =>
        .ok (replaceLinkedJunctions k entityId pids
          (setLinkedBlob k entityId treeId encryptedData db))

-- ## Wire-level optionality of update items

/-- A `persons_update` item as it appears on the wire, before pydantic
validation: the id plus a possibly-omitted `encrypted_data` field. -/
structure WirePersonUpdate where
  id : Id
  encryptedData : Option String := none
  deriving DecidableEq, Repr

/-- Pydantic parsing of `SyncPersonUpdate`: `encrypted_data` is declared as
`str` with no default (`app/schemas/tree.py` lines 33-34), so an item that
omits it is rejected at request validation; nothing in the schema marks the
blob optional for persons. -/
def parseSyncPersonUpdate (w : WirePersonUpdate) : Option SyncPersonUpdate :=
  match w.encryptedData with
  | some d => some { id := w.id, encryptedData := d }
  | none => none

/-- A linked-entity update item as it appears on the wire: the id plus
possibly-omitted `person_ids` and `encrypted_data` fields. -/
structure WireLinkedUpdate where
  id : Id
  personIds : Option (List Id) := none
  encryptedData : Option String := none
  deriving DecidableEq, Repr

/-- Pydantic parsing of `SyncEventUpdate` (and its classification/turning
point/pattern twins): both `person_ids` and `encrypted_data` are declared
optional with default `None`, so every wire item is accepted and omitted
fields stay `None`. -/
def parseSyncLinkedUpdate (w : WireLinkedUpdate) : Option SyncLinkedUpdate :=
  some { id := w.id, personIds := w.personIds, encryptedData := w.encryptedData }

-- ## Auxiliary definitions for the verification

/-- The (id, tree_id) primary-key/scope pairs of a table's rows: the update
loops overwrite payload fields only, so these key pairs are preserved across
an update phase. -/
def rowKeys [TreeRow α] (rows : List α) : List (Id × Id) :=
  rows.map (fun r => (TreeRow.rowId r, TreeRow.rowTreeId r))

/-- The frame property one sync phase guarantees for one tree-scoped table:
rows of every other tree are exactly preserved, and every row of the result
is either an untouched original row or belongs to the target tree (created
and modified rows are always tagged with the target tree's id). -/
def tableFrame [TreeRow α] (treeId : Id) (before after : List α) : Prop :=
  after.filter (fun r => !(TreeRow.rowTreeId r == treeId)) =
    before.filter (fun r => !(TreeRow.rowTreeId r == treeId)) ∧
  ∀ r ∈ after, r ∈ before ∨ TreeRow.rowTreeId r = treeId

/-- Written from the spec's words for comparison with the create loops: "the
response carries, per kind, the list of ids created (in input order,
one-to-one with the create list)" where "each entity's own identifier is the
client-supplied one if present, else freshly generated".  Takes the
client-supplied optional ids in input order and the fresh-id supply. -/
def specCreatedIds (gen : Nat) : List (Option Id) → List Id
  | [] => []
  | some c :: rest => c :: specCreatedIds gen rest
  | none :: rest => gen :: specCreatedIds (gen + 1) rest

/-- A concrete store used by the witness theorems: tree 0 (the sync target)
holds persons 1 and 7, relationship 3, event 4, classification 5, pattern 6,
turning point 8 and life event 9 with their junction rows; tree 5 (another
user's tree) holds person 2, relationship 30 and event 40. -/
def sampleDB : DB where
  persons := [⟨1, 0, "p1"⟩, ⟨2, 5, "q"⟩, ⟨7, 0, "p7"⟩]
  relationships := [⟨3, 0, 1, 7, "r"⟩, ⟨30, 5, 2, 2, "r5"⟩]
  events := [⟨4, 0, "e"⟩, ⟨40, 5, "e5"⟩]
  classifications := [⟨5, 0, "c"⟩]
  patterns := [⟨6, 0, "pat"⟩]
  turningPoints := [⟨8, 0, "tp"⟩]
  lifeEvents := [⟨9, 0, "le"⟩]
  eventPersons := [⟨4, 1⟩, ⟨40, 2⟩]
  classificationPersons := [⟨5, 1⟩]
  patternPersons := [⟨6, 7⟩]
  turningPointPersons := [⟨8, 1⟩]
  lifeEventPersons := [⟨9, 1⟩]

-- ## Helper lemmas

theorem mem_modifyP {p : α → Bool} {f : α → α} {l : List α} {r : α}
    (hr : r ∈ modifyP p f l) :
    r ∈ l ∨ ∃ r₀ ∈ l, p r₀ = true ∧ r = f r₀ := by
  induction l with
  | nil => simp [modifyP] at hr
  | cons a l ih =>
    simp only [modifyP] at hr
    by_cases hpa : p a
    · simp [hpa] at hr
      rcases hr with h | h
      · exact Or.inr ⟨a, by simp, hpa, h⟩
      · exact Or.inl (by simp [h])
    · simp [hpa] at hr
      rcases hr with h | h
      · exact Or.inl (by simp [h])
      · rcases ih h with h1 | ⟨r₀, hr₀, hp₀, hre⟩
        · exact Or.inl (by simp [h1])
        · exact Or.inr ⟨r₀, by simp [hr₀], hp₀, hre⟩

theorem modifyP_map {p : α → Bool} {f : α → α} (g : α → β)
    (h : ∀ r, p r = true → g (f r) = g r) (l : List α) :
    (modifyP p f l).map g = l.map g := by
  induction l with
  | nil => rfl
  | cons a l ih =>
    simp only [modifyP]
    by_cases hpa : p a
    · simp [hpa, h a hpa]
    · simp [hpa, ih]

theorem modifyP_filter_of_ne {p q : α → Bool} {f : α → α}
    (h : ∀ r, p r = true → (q r = false ∧ q (f r) = false)) (l : List α) :
    (modifyP p f l).filter q = l.filter q := by
  induction l with
  | nil => rfl
  | cons a l ih =>
    simp only [modifyP]
    by_cases hpa : p a
    · rw [if_pos hpa, List.filter_cons, List.filter_cons, (h a hpa).1,
        (h a hpa).2]
      simp
    · rw [if_neg hpa, List.filter_cons, List.filter_cons, ih]

theorem eraseP_filter_of_ne {p q : α → Bool}
    (h : ∀ r, p r = true → q r = false) (l : List α) :
    (l.eraseP p).filter q = l.filter q := by
  induction l with
  | nil => rfl
  | cons a l ih =>
    rw [List.eraseP_cons]
    by_cases hpa : p a
    · simp [hpa, List.filter_cons, h a hpa]
    · simp [hpa, List.filter_cons]
      by_cases hqa : q a <;> simp [hqa, ih]

-- ## Validator lemmas

theorem treePersonIds_mem {db : DB} {treeId i : Id} :
    i ∈ treePersonIds db treeId ↔
      ∃ p ∈ db.persons, p.treeId = treeId ∧ p.id = i := by
  simp only [treePersonIds, List.mem_map, List.mem_filter, beq_iff_eq]
  constructor
  · rintro ⟨p, ⟨hp, ht⟩, hi⟩
    exact ⟨p, hp, ht, hi⟩
  · rintro ⟨p, hp, ht, hi⟩
    exact ⟨p, ⟨hp, ht⟩, hi⟩

theorem validate_nil (treeId : Id) (db : DB) :
    validatePersonIdsInTree [] treeId db = .ok () := rfl

theorem mem_validateFound {db : DB} {treeId : Id} {ids : List Id} {i : Id} :
    i ∈ validateFound ids treeId db ↔
      i ∈ treePersonIds db treeId ∧ i ∈ ids := by
  simp only [validateFound, List.mem_map, List.mem_filter, Bool.and_eq_true,
    beq_iff_eq, treePersonIds_mem, List.contains, List.elem_iff]
  constructor
  · rintro ⟨p, ⟨hp, ht, hm⟩, hi⟩
    exact ⟨⟨p, hp, ht, hi⟩, hi ▸ hm⟩
  · rintro ⟨⟨p, hp, ht, hi⟩, hm⟩
    exact ⟨p, ⟨hp, ht, hi ▸ hm⟩, hi⟩

theorem mem_missingIds {ids : List Id} {treeId : Id} {db : DB} {i : Id} :
    i ∈ missingIds ids treeId db ↔
      i ∈ ids ∧ i ∉ treePersonIds db treeId := by
  simp only [missingIds, List.mem_dedup, List.mem_filter]
  constructor
  · rintro ⟨hi, hb⟩
    refine ⟨hi, fun hmem => ?_⟩
    have hc : (validateFound ids treeId db).contains i = true := by
      rw [List.contains, List.elem_iff, mem_validateFound]
      exact ⟨hmem, hi⟩
    rw [hc] at hb
    cases hb
  · rintro ⟨hi, hni⟩
    refine ⟨hi, ?_⟩
    have hc : (validateFound ids treeId db).contains i = false := by
      by_contra hcc
      rw [Bool.not_eq_false, List.contains, List.elem_iff,
        mem_validateFound] at hcc
      exact hni hcc.1
    rw [hc]
    rfl

theorem validate_ok_iff {ids : List Id} {treeId : Id} {db : DB} :
    validatePersonIdsInTree ids treeId db = .ok () ↔
      ∀ i ∈ ids, i ∈ treePersonIds db treeId := by
  unfold validatePersonIdsInTree
  by_cases hids : ids.isEmpty
  · rw [List.isEmpty_iff] at hids
    subst hids
    simp
  · rw [if_neg hids]
    by_cases hmis : (missingIds ids treeId db).isEmpty
    · rw [if_pos hmis]
      rw [List.isEmpty_iff, List.eq_nil_iff_forall_not_mem] at hmis
      simp only [true_iff]
      intro i hi
      by_contra hno
      exact hmis i (mem_missingIds.mpr ⟨hi, hno⟩)
    · rw [if_neg hmis]
      rw [List.isEmpty_iff, List.eq_nil_iff_forall_not_mem] at hmis
      push_neg at hmis
      rcases hmis with ⟨i, hi⟩
      rw [mem_missingIds] at hi
      constructor
      · intro h
        cases h
      · intro hall
        exact absurd (hall i hi.1) hi.2

theorem validate_error_shape {ids : List Id} {treeId : Id} {db : DB}
    {e : ApiError} (h : validatePersonIdsInTree ids treeId db = .error e) :
    e = .validation (missingIds ids treeId db) := by
  unfold validatePersonIdsInTree at h
  by_cases hids : ids.isEmpty
  · rw [if_pos hids] at h
    cases h
  · rw [if_neg hids] at h
    by_cases hmis : (missingIds ids treeId db).isEmpty
    · rw [if_pos hmis] at h
      cases h
    · rw [if_neg hmis] at h
      exact ((Except.error.injEq _ _).mp h).symm

theorem validate_error_missing {ids : List Id} {treeId : Id} {db : DB}
    {m : List Id}
    (h : validatePersonIdsInTree ids treeId db = .error (.validation m)) :
    ∀ i, i ∈ m ↔ i ∈ ids ∧ i ∉ treePersonIds db treeId := by
  have hm := validate_error_shape h
  have : m = missingIds ids treeId db :=
    (ApiError.validation.injEq _ _).mp hm
  subst this
  intro i
  exact mem_missingIds

/-- C4: the referential validator accepts the empty set for every store
(its result does not depend on the store at all in that case, mirroring the
early return before any query); on any nonempty input it succeeds exactly
when every id is a person of the given tree, every error it returns is a
422 validation error, and the error detail enumerates exactly the ids that
are not persons of the tree (all of them, not only the first). -/
theorem validator_contract (ids : List Id) (treeId : Id) (db : DB) :
    (validatePersonIdsInTree [] treeId db = .ok ()) ∧
    (validatePersonIdsInTree ids treeId db = .ok () ↔
      ∀ i ∈ ids, i ∈ treePersonIds db treeId) ∧
    (∀ e, validatePersonIdsInTree ids treeId db = .error e →
      e.statusCode = 422) ∧
    (∀ m, validatePersonIdsInTree ids treeId db = .error (.validation m) →
      ∀ i, i ∈ m ↔ i ∈ ids ∧ i ∉ treePersonIds db treeId) := by
  refine ⟨validate_nil treeId db, validate_ok_iff, ?_, ?_⟩
  · intro e he
    rcases validate_error_shape he with ⟨m, rfl⟩
    rfl
  · intro m hm
    exact validate_error_missing hm

/-- Witness for `validator_contract` at a concrete store: ids 1 and 7 are
persons of tree 0 in `sampleDB`, while 2 (a person of tree 5) and 99 are
not, so validating [1, 2, 99] fails listing exactly {2, 99}. -/
theorem validator_contract_witness :
    validatePersonIdsInTree [1, 7] 0 sampleDB = .ok () ∧
    (2 ∈ [2, 99] ↔ 2 ∈ [1, 2, 99] ∧ 2 ∉ treePersonIds sampleDB 0) :=
  ⟨(validator_contract [1, 7] 0 sampleDB).2.1.mpr (by decide),
   (validator_contract [1, 2, 99] 0 sampleDB).2.2.2 [2, 99] (by decide) 2⟩

-- ## C2, C3, C8: the sync router drops the turning-point lists

/-- C2 (code-bug evaluation): a batch containing only a valid TurningPoint
create — person 1 exists in tree 0 — is answered 200 with the *default*
(all-empty) response and leaves the store untouched: the reconciler
processes none of the turning-point lists, while the repository's own tests
(`test_sync.py::TestSyncTurningPoints`) assert `turning_points_created`
has length 1, updates count and deletes count.  (The sync schema has no
life-event lists at all.) -/
theorem sync_ignores_turning_point_batch :
    syncTree
      { turningPointsCreate := [{ personIds := [1], encryptedData := "tp1" }] }
      0 100 sampleDB = { db := sampleDB, result := .ok {} } := by
  decide

/-- C3 (code-bug evaluation): a turning-point create whose `person_ids`
references 99 — not a person of tree 0 — does NOT fail the batch: the
create phase collects referenced person ids only from relationship, event,
classification and pattern creates, so the batch succeeds (with the
turning-point item dropped), while the claim and the repository's test
`test_create_turning_point_invalid_person` require a 422. -/
theorem sync_skips_turning_point_validation :
    (syncTree
      { turningPointsCreate := [{ personIds := [99], encryptedData := "tp" }] }
      0 100 sampleDB).result = .ok {} ∧
    99 ∉ treePersonIds sampleDB 0 := by
  decide

/-- C8 (code-bug evaluation): for the `turning_points_create` list the
created-ids array of the response does NOT have the same length as the
input list and does not echo the client-supplied id: a one-item create list
carrying client id 50 yields `turning_points_created = []`, while the
repository's test `test_create_turning_point` asserts length 1.  (For the
kinds the create phase does process, see `createdIds_spec`.) -/
theorem sync_turning_point_created_ids_dropped :
    (syncTree
      { turningPointsCreate :=
          [{ id := some 50, personIds := [1], encryptedData := "tp" }] }
      0 100 sampleDB).result = .ok {} ∧
    (({} : SyncResponse).turningPointsCreated.length = 0 ∧
      [({ id := some 50, personIds := [1], encryptedData := "tp" } :
        SyncLinkedCreate)].length = 1) := by
  decide

-- ## Delete-phase lemmas

theorem deleteByTree_length [TreeRow α] (treeId : Id) (items : List SyncDelete)
    (rows : List α) :
    (deleteByTree treeId items rows).1.length +
      (deleteByTree treeId items rows).2 = rows.length := by
  induction items generalizing rows with
  | nil => simp [deleteByTree]
  | cons item rest ih =>
    simp only [deleteByTree]
    rcases h : rows.find? (matchRow item.id treeId) with _ | r
    · exact ih rows
    · have hmem := List.mem_of_find?_eq_some h
      have hp := List.find?_some h
      have hlen := List.length_eraseP_of_mem hmem hp
      have hpos : 0 < rows.length := List.length_pos_of_mem hmem
      have := ih (rows.eraseP (matchRow item.id treeId))
      simp only []
      omega

theorem deleteByTree_sublist [TreeRow α] (treeId : Id)
    (items : List SyncDelete) (rows : List α) :
    List.Sublist (deleteByTree treeId items rows).1 rows := by
  induction items generalizing rows with
  | nil => simp [deleteByTree]
  | cons item rest ih =>
    simp only [deleteByTree]
    rcases h : rows.find? (matchRow item.id treeId) with _ | r
    · exact ih rows
    · exact (ih _).trans (List.eraseP_sublist rows)

theorem deleteByTree_skip [TreeRow α] {treeId : Id} {item : SyncDelete}
    (items : List SyncDelete) {rows : List α}
    (h : ∀ r ∈ rows, matchRow item.id treeId r = false) :
    deleteByTree treeId (items ++ [item]) rows =
      deleteByTree treeId items rows := by
  induction items generalizing rows with
  | nil =>
    simp only [List.nil_append, deleteByTree]
    rw [List.find?_eq_none.mpr (fun r hr => by simp [h r hr])]
  | cons it rest ih =>
    simp only [List.cons_append, deleteByTree]
    rcases hf : rows.find? (matchRow it.id treeId) with _ | r
    · exact ih h
    · have hsub : ∀ r ∈ rows.eraseP (matchRow it.id treeId),
          matchRow item.id treeId r = false :=
        fun r hr => h r (List.Sublist.mem hr (List.eraseP_sublist rows))
      exact congrArg (fun t => (t.1, t.2 + 1)) (ih hsub)

theorem deleteByTree_filter_other [TreeRow α] (treeId : Id)
    (items : List SyncDelete) (rows : List α) :
    (deleteByTree treeId items rows).1.filter
        (fun r => !(TreeRow.rowTreeId r == treeId)) =
      rows.filter (fun r => !(TreeRow.rowTreeId r == treeId)) := by
  induction items generalizing rows with
  | nil => simp [deleteByTree]
  | cons item rest ih =>
    simp only [deleteByTree]
    rcases h : rows.find? (matchRow item.id treeId) with _ | r
    · exact ih rows
    · rw [ih, eraseP_filter_of_ne]
      intro r hr
      simp only [matchRow, Bool.and_eq_true] at hr
      simp [hr.2]

-- ## Response bookkeeping across the create and update phases

theorem phaseCreates_ok_resp {body : SyncRequest} {treeId : Id} {gen : Nat}
    {db : DB} {resp : SyncResponse} {out : DB × SyncResponse × Nat}
    (h : phaseCreates body treeId gen db resp = .ok out) :
    out.2.1.personsDeleted = resp.personsDeleted ∧
    out.2.1.relationshipsDeleted = resp.relationshipsDeleted ∧
    out.2.1.eventsDeleted = resp.eventsDeleted ∧
    out.2.1.classificationsDeleted = resp.classificationsDeleted ∧
    out.2.1.patternsDeleted = resp.patternsDeleted ∧
    out.2.1.turningPointsDeleted = resp.turningPointsDeleted ∧
    out.2.1.turningPointsCreated = resp.turningPointsCreated ∧
    out.2.1.turningPointsUpdated = resp.turningPointsUpdated := by
  simp only [phaseCreates] at h
  split at h
  · cases h
  · have he := (Except.ok.injEq _ _).mp h
    subst he
    exact ⟨rfl, rfl, rfl, rfl, rfl, rfl, rfl, rfl⟩

theorem phaseUpdates_ok_resp {body : SyncRequest} {treeId : Id} {db : DB}
    {resp : SyncResponse} {out : DB × SyncResponse}
    (h : phaseUpdates body treeId db resp = .ok out) :
    out.2.personsDeleted = resp.personsDeleted ∧
    out.2.relationshipsDeleted = resp.relationshipsDeleted ∧
    out.2.eventsDeleted = resp.eventsDeleted ∧
    out.2.classificationsDeleted = resp.classificationsDeleted ∧
    out.2.patternsDeleted = resp.patternsDeleted ∧
    out.2.turningPointsDeleted = resp.turningPointsDeleted ∧
    out.2.turningPointsCreated = resp.turningPointsCreated ∧
    out.2.turningPointsUpdated = resp.turningPointsUpdated ∧
    out.2.personsCreated = resp.personsCreated ∧
    out.2.relationshipsCreated = resp.relationshipsCreated ∧
    out.2.eventsCreated = resp.eventsCreated ∧
    out.2.classificationsCreated = resp.classificationsCreated ∧
    out.2.patternsCreated = resp.patternsCreated := by
  simp only [phaseUpdates] at h
  split at h
  · cases h
  · split at h
    · cases h
    · split at h
      · cases h
      · split at h
        · cases h
        · split at h
          · cases h
          · have he := (Except.ok.injEq _ _).mp h
            subst he
            exact ⟨rfl, rfl, rfl, rfl, rfl, rfl, rfl, rfl, rfl, rfl, rfl,
              rfl, rfl⟩

-- ## Table-preservation lemmas for the update loops

theorem updatePersons_preserves (g : DB → β)
    (hg : ∀ (db : DB) (ps : List PersonRow),
      g { db with persons := ps } = g db)
    {treeId : Id} (items : List SyncPersonUpdate) {db : DB} {c : Nat}
    {out : DB × Nat} (h : updatePersons treeId items db c = .ok out) :
    g out.1 = g db := by
  induction items generalizing db c with
  | nil =>
    simp only [updatePersons] at h
    have := (Except.ok.injEq _ _).mp h
    subst this
    rfl
  | cons item rest ih =>
    simp only [updatePersons] at h
    split at h
    · cases h
    · rw [ih h, hg]

theorem setRelBlob_preserves (g : DB → β)
    (hg : ∀ (db : DB) (rels : List RelationshipRow),
      g { db with relationships := rels } = g db)
    (item : SyncRelationshipUpdate) (treeId : Id) (db : DB) :
    g (setRelBlob item treeId db) = g db := by
  unfold setRelBlob
  split
  · rfl
  · exact hg _ _

theorem applyRelTarget_preserves (g : DB → β)
    (hg : ∀ (db : DB) (rels : List RelationshipRow),
      g { db with relationships := rels } = g db)
    {item : SyncRelationshipUpdate} {treeId : Id} {db db2 : DB}
    (h : applyRelTarget item treeId db = .ok db2) :
    g db2 = g db := by
  unfold applyRelTarget at h
  split at h
  · have := (Except.ok.injEq _ _).mp h
    subst this
    exact setRelBlob_preserves g hg item treeId db
  · split at h
    · cases h
    · have := (Except.ok.injEq _ _).mp h
      subst this
      rw [setRelBlob_preserves g hg, hg]

theorem applyRelUpdate_preserves (g : DB → β)
    (hg : ∀ (db : DB) (rels : List RelationshipRow),
      g { db with relationships := rels } = g db)
    {item : SyncRelationshipUpdate} {treeId : Id} {db db2 : DB}
    (h : applyRelUpdate item treeId db = .ok db2) :
    g db2 = g db := by
  unfold applyRelUpdate at h
  split at h
  · exact applyRelTarget_preserves g hg h
  · split at h
    · cases h
    · rw [applyRelTarget_preserves g hg h, hg]

theorem updateRelationships_preserves (g : DB → β)
    (hg : ∀ (db : DB) (rels : List RelationshipRow),
      g { db with relationships := rels } = g db)
    {treeId : Id} (items : List SyncRelationshipUpdate) {db : DB} {c : Nat}
    {out : DB × Nat} (h : updateRelationships treeId items db c = .ok out) :
    g out.1 = g db := by
  induction items generalizing db c with
  | nil =>
    simp only [updateRelationships] at h
    have := (Except.ok.injEq _ _).mp h
    subst this
    rfl
  | cons item rest ih =>
    simp only [updateRelationships] at h
    split at h
    · cases h
    · split at h
      · cases h
      · rename_i db1 happ
        rw [ih h, applyRelUpdate_preserves g hg happ]

theorem setLinkedBlob_preserves {k : LinkedKind} (g : DB → β)
    (hR : ∀ (db : DB) (rows : List EntityRow), g (k.setRows db rows) = g db)
    (entityId treeId : Id) (edata : Option String) (db : DB) :
    g (setLinkedBlob k entityId treeId edata db) = g db := by
  unfold setLinkedBlob
  split
  · rfl
  · exact hR _ _

theorem applyLinkedUpdate_preserves {k : LinkedKind} (g : DB → β)
    (hR : ∀ (db : DB) (rows : List EntityRow), g (k.setRows db rows) = g db)
    (hJ : ∀ (db : DB) (js : List JunctionRow),
      g (k.setJunctions db js) = g db)
    {item : SyncLinkedUpdate} {treeId : Id} {db db2 : DB}
    (h : applyLinkedUpdate k item treeId db = .ok db2) :
    g db2 = g db := by
  unfold applyLinkedUpdate at h
  split at h
  · have := (Except.ok.injEq _ _).mp h
    subst this
    exact setLinkedBlob_preserves g hR _ _ _ db
  · split at h
    · cases h
    · have := (Except.ok.injEq _ _).mp h
      subst this
      rw [replaceLinkedJunctions, hJ]
      exact setLinkedBlob_preserves g hR _ _ _ db

theorem updateLinked_preserves {k : LinkedKind} (g : DB → β)
    (hR : ∀ (db : DB) (rows : List EntityRow), g (k.setRows db rows) = g db)
    (hJ : ∀ (db : DB) (js : List JunctionRow),
      g (k.setJunctions db js) = g db)
    {treeId : Id} (items : List SyncLinkedUpdate) {db : DB} {c : Nat}
    {out : DB × Nat} (h : updateLinked k treeId items db c = .ok out) :
    g out.1 = g db := by
  induction items generalizing db c with
  | nil =>
    simp only [updateLinked] at h
    have := (Except.ok.injEq _ _).mp h
    subst this
    rfl
  | cons item rest ih =>
    simp only [updateLinked] at h
    split at h
    · cases h
    · split at h
      · cases h
      · rename_i db1 happ
        rw [ih h, applyLinkedUpdate_preserves g hR hJ happ]

theorem phaseUpdates_preserves (g : DB → β)
    (hP : ∀ (db : DB) (ps : List PersonRow),
      g { db with persons := ps } = g db)
    (hRel : ∀ (db : DB) (rels : List RelationshipRow),
      g { db with relationships := rels } = g db)
    (hE : ∀ (db : DB) (rows : List EntityRow),
      g { db with events := rows } = g db)
    (hEJ : ∀ (db : DB) (js : List JunctionRow),
      g { db with eventPersons := js } = g db)
    (hC : ∀ (db : DB) (rows : List EntityRow),
      g { db with classifications := rows } = g db)
    (hCJ : ∀ (db : DB) (js : List JunctionRow),
      g { db with classificationPersons := js } = g db)
    (hPat : ∀ (db : DB) (rows : List EntityRow),
      g { db with patterns := rows } = g db)
    (hPatJ : ∀ (db : DB) (js : List JunctionRow),
      g { db with patternPersons := js } = g db)
    {body : SyncRequest} {treeId : Id} {db : DB} {resp : SyncResponse}
    {out : DB × SyncResponse}
    (h : phaseUpdates body treeId db resp = .ok out) : g out.1 = g db := by
  simp only [phaseUpdates] at h
  split at h
  · cases h
  · rename_i pu hpu
    split at h
    · cases h
    · rename_i ru hru
      split at h
      · cases h
      · rename_i eu heu
        split at h
        · cases h
        · rename_i cu hcu
          split at h
          · cases h
          · rename_i patu hpatu
            have := (Except.ok.injEq _ _).mp h
            subst this
            rw [updateLinked_preserves g hPat hPatJ _ hpatu,
              updateLinked_preserves g hC hCJ _ hcu,
              updateLinked_preserves g hE hEJ _ heu,
              updateRelationships_preserves g hRel _ hru,
              updatePersons_preserves g hP _ hpu]

theorem syncTransaction_ok_destruct {body : SyncRequest} {treeId : Id}
    {gen : Nat} {db : DB} {res : DB × SyncResponse × Nat}
    (h : syncTransaction body treeId gen db = .ok res) :
    ∃ c u,
      phaseCreates body treeId gen (phaseDeletes body treeId db {}).1
        (phaseDeletes body treeId db {}).2 = .ok c ∧
      phaseUpdates body treeId c.1 c.2.1 = .ok u ∧
      res = (u.1, u.2, c.2.2) := by
  simp only [syncTransaction] at h
  split at h
  · cases h
  · rename_i c hc
    split at h
    · cases h
    · rename_i u hu
      exact ⟨c, u, hc, hu, ((Except.ok.injEq _ _).mp h).symm⟩

/-- C5: deletion is idempotent and exactly counted.  For every delete list
and every tree-scoped table: the rows left plus the returned count equal the
original rows (the count is exactly the number of rows removed); the
resulting table is a sublist of the original (nothing is added or altered);
appending a delete item whose id names no row of the target tree leaves the
result — rows and count — unchanged (the item is silently skipped, and the
delete phase is a total function, so no delete item can fail the batch).  On
any successful sync the per-kind deleted counts of the response are exactly
the counts produced by running this delete pass on the original store
(turning-point delete lists are ignored by the router: their count is 0 and
exactly 0 turning-point rows are removed). -/
theorem sync_delete_idempotent {α : Type} [TreeRow α] (treeId : Id)
    (items : List SyncDelete) (rows : List α) :
    ((deleteByTree treeId items rows).1.length +
        (deleteByTree treeId items rows).2 = rows.length) ∧
    List.Sublist (deleteByTree treeId items rows).1 rows ∧
    (∀ item : SyncDelete, (∀ r ∈ rows, matchRow item.id treeId r = false) →
      deleteByTree treeId (items ++ [item]) rows =
        deleteByTree treeId items rows) ∧
    (∀ (body : SyncRequest) (gen : Nat) (db : DB) (resp : SyncResponse),
      (syncTree body treeId gen db).result = .ok resp →
      resp.relationshipsDeleted =
        (deleteByTree treeId body.relationshipsDelete db.relationships).2 ∧
      resp.classificationsDeleted =
        (deleteByTree treeId body.classificationsDelete db.classifications).2 ∧
      resp.eventsDeleted =
        (deleteByTree treeId body.eventsDelete db.events).2 ∧
      resp.patternsDeleted =
        (deleteByTree treeId body.patternsDelete db.patterns).2 ∧
      resp.personsDeleted =
        (deleteByTree treeId body.personsDelete db.persons).2 ∧
      resp.turningPointsDeleted = 0 ∧
      (syncTree body treeId gen db).db.turningPoints = db.turningPoints) := by
  refine ⟨deleteByTree_length treeId items rows,
    deleteByTree_sublist treeId items rows,
    fun item h => deleteByTree_skip items h, ?_⟩
  intro body gen db resp h
  rcases htx : syncTransaction body treeId gen db with e | res
  · simp [syncTree, htx] at h
  · simp only [syncTree, htx] at h ⊢
    have hresp := (Except.ok.injEq _ _).mp h
    rcases syncTransaction_ok_destruct htx with ⟨c, u, hc, hu, hres⟩
    have hcs := phaseCreates_ok_resp hc
    have hus := phaseUpdates_ok_resp hu
    have htp : u.1.turningPoints = c.1.turningPoints :=
      phaseUpdates_preserves (fun d => d.turningPoints)
        (fun _ _ => rfl) (fun _ _ => rfl) (fun _ _ => rfl) (fun _ _ => rfl)
        (fun _ _ => rfl) (fun _ _ => rfl) (fun _ _ => rfl) (fun _ _ => rfl)
        hu
    have hctp : c.1.turningPoints =
        (phaseDeletes body treeId db {}).1.turningPoints := by
      simp only [phaseCreates] at hc
      split at hc
      · cases hc
      · have := (Except.ok.injEq _ _).mp hc
        subst this
        rfl
    subst hres
    subst hresp
    refine ⟨?_, ?_, ?_, ?_, ?_, ?_, ?_⟩
    · rw [hus.2.1, hcs.2.1]
      rfl
    · rw [hus.2.2.2.1, hcs.2.2.2.1]
      rfl
    · rw [hus.2.2.1, hcs.2.2.1]
      rfl
    · rw [hus.2.2.2.2.1, hcs.2.2.2.2.1]
      rfl
    · rw [hus.1, hcs.1]
      rfl
    · rw [hus.2.2.2.2.2.1, hcs.2.2.2.2.2.1]
      rfl
    · rw [htp, hctp]
      rfl

/-- Witness for `sync_delete_idempotent`: in `sampleDB`, appending the
unknown id 42 to a persons delete list changes nothing, and a successful
sync deleting person 1 plus the unknown 42 reports `persons_deleted = 1`,
exactly the one row removed by that delete pass. -/
theorem sync_delete_idempotent_witness :
    (deleteByTree 0 ([⟨1⟩] ++ [⟨42⟩]) sampleDB.persons =
      deleteByTree 0 [⟨1⟩] sampleDB.persons) ∧
    ({ personsDeleted := 1 } : SyncResponse).personsDeleted =
      (deleteByTree 0 [⟨1⟩, ⟨42⟩] sampleDB.persons).2 :=
  ⟨((sync_delete_idempotent 0 [⟨1⟩] sampleDB.persons).2.2.1 ⟨42⟩ (by decide)),
   ((sync_delete_idempotent (α := PersonRow) 0 [] []).2.2.2
      { personsDelete := [⟨1⟩, ⟨42⟩] } 100 sampleDB
      { personsDeleted := 1 } (by decide)).2.2.2.2.1⟩

-- ## C9: optionality of the update blob

/-- C9 (counterexample): a `persons_update` wire item that supplies only the
id — `encrypted_data` omitted — is rejected by request validation, because
`PersonUpdate.encrypted_data` is declared `str` with no default
(`app/schemas/tree.py` lines 33-34).  The claim says such an item is
accepted and leaves the stored blob unchanged. -/
theorem person_update_blob_counterexample :
    parseSyncPersonUpdate { id := 7 } = none := rfl

/-- C9 (amended): the encrypted blob is optional — omitted means unchanged —
on Relationship, Event, Classification, TurningPoint and Pattern update
items, whose schemas declare it `str | None = None`; but a Person update
item *requires* the blob (an item without it fails request validation) and
the person-update loop overwrites the stored blob unconditionally with the
supplied value. -/
theorem update_blob_optionality :
    (∀ w : WirePersonUpdate, w.encryptedData = none →
      parseSyncPersonUpdate w = none) ∧
    (∀ (w : WirePersonUpdate) (d : String), w.encryptedData = some d →
      parseSyncPersonUpdate w =
        some { id := w.id, encryptedData := d }) ∧
    (∀ w : WireLinkedUpdate, parseSyncLinkedUpdate w =
      some { id := w.id, personIds := w.personIds,
             encryptedData := w.encryptedData }) ∧
    (∀ (item : SyncRelationshipUpdate) (treeId : Id) (db : DB),
      item.encryptedData = none → setRelBlob item treeId db = db) ∧
    (∀ (k : LinkedKind) (entityId treeId : Id) (db : DB),
      setLinkedBlob k entityId treeId none db = db) ∧
    (∀ (treeId : Id) (item : SyncPersonUpdate) (db : DB)
      (out : DB × Nat), updatePersons treeId [item] db 0 = .ok out →
      out.1.persons = modifyP (matchRow item.id treeId)
        (fun p => { p with encryptedData := item.encryptedData })
        db.persons) := by
  refine ⟨?_, ?_, ?_, ?_, ?_, ?_⟩
  · intro w hw
    unfold parseSyncPersonUpdate
    rw [hw]
  · intro w d hw
    unfold parseSyncPersonUpdate
    rw [hw]
  · intro w
    rfl
  · intro item treeId db hnone
    simp [setRelBlob, hnone]
  · intro k entityId treeId db
    rfl
  · intro treeId item db out h
    simp only [updatePersons] at h
    split at h
    · cases h
    · have := (Except.ok.injEq _ _).mp h
      subst this
      rfl

/-- Witness for `update_blob_optionality`: concrete instances — the wire
item {id 7, blob omitted} is rejected; a linked wire item with both fields
omitted parses with both `None`; and updating person 1 of `sampleDB` with
blob "new" rewrites exactly that row's blob. -/
theorem update_blob_optionality_witness :
    parseSyncPersonUpdate { id := 7 } = none ∧
    parseSyncLinkedUpdate { id := 8 } = some { id := 8 } ∧
    ({ sampleDB with persons :=
        [⟨1, 0, "new"⟩, ⟨2, 5, "q"⟩, ⟨7, 0, "p7"⟩] } : DB).persons =
      modifyP (matchRow 1 0)
        (fun p => { p with encryptedData := "new" }) sampleDB.persons :=
  ⟨update_blob_optionality.1 { id := 7 } rfl,
   update_blob_optionality.2.2.1 { id := 8 },
   update_blob_optionality.2.2.2.2.2 0 { id := 1, encryptedData := "new" }
     sampleDB
     ({ sampleDB with persons := [⟨1, 0, "new"⟩, ⟨2, 5, "q"⟩, ⟨7, 0, "p7"⟩] },
      1)
     (by decide)⟩

-- ## Key-stability of the update loops

theorem rowKeys_find?_none [TreeRow α] {rows : List α} {i treeId : Id} :
    rows.find? (matchRow i treeId) = none ↔ (i, treeId) ∉ rowKeys rows := by
  rw [List.find?_eq_none]
  constructor
  · intro h hmem
    rw [rowKeys, List.mem_map] at hmem
    rcases hmem with ⟨r, hr, hpair⟩
    apply h r hr
    rw [Prod.mk.injEq] at hpair
    simp [matchRow, hpair.1, hpair.2]
  · intro h r hr hc
    apply h
    rw [rowKeys, List.mem_map]
    refine ⟨r, hr, ?_⟩
    simp only [matchRow, Bool.and_eq_true, beq_iff_eq] at hc
    rw [Prod.mk.injEq]
    exact ⟨hc.1, hc.2⟩

theorem rowKeys_modifyP [TreeRow α] (p : α → Bool) (f : α → α)
    (hf : ∀ r : α, TreeRow.rowId (f r) = TreeRow.rowId r ∧
      TreeRow.rowTreeId (f r) = TreeRow.rowTreeId r) (l : List α) :
    rowKeys (modifyP p f l) = rowKeys l :=
  modifyP_map _ (fun r _ => by rw [Prod.mk.injEq]; exact (hf r)) l

theorem setRelBlob_keys (item : SyncRelationshipUpdate) (treeId : Id)
    (db : DB) :
    rowKeys (setRelBlob item treeId db).relationships =
      rowKeys db.relationships := by
  unfold setRelBlob
  split
  · rfl
  · rename_i d hd
    exact rowKeys_modifyP (matchRow item.id treeId)
      (fun r => { r with encryptedData := d })
      (fun r => ⟨rfl, rfl⟩) db.relationships

theorem applyRelTarget_keys {item : SyncRelationshipUpdate} {treeId : Id}
    {db db2 : DB} (h : applyRelTarget item treeId db = .ok db2) :
    rowKeys db2.relationships = rowKeys db.relationships := by
  unfold applyRelTarget at h
  split at h
  · have := (Except.ok.injEq _ _).mp h
    subst this
    exact setRelBlob_keys item treeId db
  · rename_i tid htid
    split at h
    · cases h
    · have := (Except.ok.injEq _ _).mp h
      subst this
      rw [setRelBlob_keys]
      exact rowKeys_modifyP (matchRow item.id treeId)
        (fun r => { r with targetPersonId := tid })
        (fun r => ⟨rfl, rfl⟩) db.relationships

theorem applyRelUpdate_keys {item : SyncRelationshipUpdate} {treeId : Id}
    {db db2 : DB} (h : applyRelUpdate item treeId db = .ok db2) :
    rowKeys db2.relationships = rowKeys db.relationships := by
  unfold applyRelUpdate at h
  split at h
  · exact applyRelTarget_keys h
  · rename_i sid hsid
    split at h
    · cases h
    · rw [applyRelTarget_keys h]
      exact rowKeys_modifyP (matchRow item.id treeId)
        (fun r => { r with sourcePersonId := sid })
        (fun r => ⟨rfl, rfl⟩) db.relationships

theorem applyRelTarget_error_shape {item : SyncRelationshipUpdate}
    {treeId : Id} {db : DB} {e : ApiError}
    (h : applyRelTarget item treeId db = .error e) :
    ∃ m, e = .validation m := by
  unfold applyRelTarget at h
  split at h
  · cases h
  · split at h
    · rename_i e2 hv
      have h1 : e2 = e := (Except.error.injEq _ _).mp h
      exact ⟨_, h1 ▸ validate_error_shape hv⟩
    · cases h

theorem applyRelUpdate_error_shape {item : SyncRelationshipUpdate}
    {treeId : Id} {db : DB} {e : ApiError}
    (h : applyRelUpdate item treeId db = .error e) :
    ∃ m, e = .validation m := by
  unfold applyRelUpdate at h
  split at h
  · exact applyRelTarget_error_shape h
  · split at h
    · rename_i e2 hv
      have h1 : e2 = e := (Except.error.injEq _ _).mp h
      exact ⟨_, h1 ▸ validate_error_shape hv⟩
    · exact applyRelTarget_error_shape h

theorem setLinkedBlob_keys {k : LinkedKind}
    (hRR : ∀ (db : DB) (rows : List EntityRow),
      k.getRows (k.setRows db rows) = rows)
    (entityId treeId : Id) (edata : Option String) (db : DB) :
    rowKeys (k.getRows (setLinkedBlob k entityId treeId edata db)) =
      rowKeys (k.getRows db) := by
  unfold setLinkedBlob
  split
  · rfl
  · rename_i d
    rw [hRR]
    exact rowKeys_modifyP (matchRow entityId treeId)
      (fun r => { r with encryptedData := d })
      (fun r => ⟨rfl, rfl⟩) (k.getRows db)

theorem applyLinkedUpdate_keys {k : LinkedKind}
    (hRR : ∀ (db : DB) (rows : List EntityRow),
      k.getRows (k.setRows db rows) = rows)
    (hRJ : ∀ (db : DB) (js : List JunctionRow),
      k.getRows (k.setJunctions db js) = k.getRows db)
    {item : SyncLinkedUpdate} {treeId : Id} {db db2 : DB}
    (h : applyLinkedUpdate k item treeId db = .ok db2) :
    rowKeys (k.getRows db2) = rowKeys (k.getRows db) := by
  unfold applyLinkedUpdate at h
  split at h
  · have := (Except.ok.injEq _ _).mp h
    subst this
    exact setLinkedBlob_keys hRR _ _ _ db
  · split at h
    · cases h
    · have := (Except.ok.injEq _ _).mp h
      subst this
      rw [replaceLinkedJunctions, hRJ]
      exact setLinkedBlob_keys hRR _ _ _ db

theorem applyLinkedUpdate_error_shape {k : LinkedKind}
    {item : SyncLinkedUpdate} {treeId : Id} {db : DB} {e : ApiError}
    (h : applyLinkedUpdate k item treeId db = .error e) :
    ∃ m, e = .validation m := by
  unfold applyLinkedUpdate at h
  split at h
  · cases h
  · split at h
    · rename_i e2 hv
      have h1 : e2 = e := (Except.error.injEq _ _).mp h
      exact ⟨_, h1 ▸ validate_error_shape hv⟩
    · cases h

-- ## Unknown update ids fail the batch with 404

theorem updatePersons_err {treeId : Id} {items : List SyncPersonUpdate}
    {db : DB} {c : Nat} {e : ApiError}
    (h : updatePersons treeId items db c = .error e) :
    ∃ item ∈ items, e = .notFound "Person" item.id ∧
      db.persons.find? (matchRow item.id treeId) = none := by
  induction items generalizing db c with
  | nil => simp [updatePersons] at h
  | cons item rest ih =>
    simp only [updatePersons] at h
    split at h
    · rename_i hf
      have he := (Except.error.injEq _ _).mp h
      exact ⟨item, by simp, he.symm, hf⟩
    · rcases ih h with ⟨item2, hmem, he, hnone⟩
      refine ⟨item2, by simp [hmem], he, ?_⟩
      have hnone2 : (modifyP (matchRow item.id treeId)
          (fun p => { p with encryptedData := item.encryptedData })
          db.persons).find? (matchRow item2.id treeId) = none := hnone
      rw [rowKeys_find?_none] at hnone2 ⊢
      rwa [rowKeys_modifyP (matchRow item.id treeId)
        (fun p : PersonRow => { p with encryptedData := item.encryptedData })
        (fun r => ⟨rfl, rfl⟩)] at hnone2

theorem updatePersons_fail {treeId : Id} {item : SyncPersonUpdate}
    {items : List SyncPersonUpdate} {db : DB} {c : Nat}
    (hmem : item ∈ items)
    (hnone : db.persons.find? (matchRow item.id treeId) = none) :
    ∀ out, updatePersons treeId items db c ≠ .ok out := by
  induction items generalizing db c with
  | nil => cases hmem
  | cons it rest ih =>
    intro out h
    simp only [updatePersons] at h
    rcases List.mem_cons.mp hmem with heq | hmem2
    · subst heq
      rw [hnone] at h
      cases h
    · split at h
      · cases h
      · have hnone2 : (modifyP (matchRow it.id treeId)
            (fun p => { p with encryptedData := it.encryptedData })
            db.persons).find? (matchRow item.id treeId) = none := by
          rw [rowKeys_find?_none,
            rowKeys_modifyP (matchRow it.id treeId)
              (fun p : PersonRow => { p with encryptedData := it.encryptedData })
              (fun r => ⟨rfl, rfl⟩)]
          exact rowKeys_find?_none.mp hnone
        exact ih hmem2 hnone2 out h

theorem updateRelationships_err {treeId : Id}
    {items : List SyncRelationshipUpdate} {db : DB} {c : Nat} {s : String}
    {i : Id}
    (h : updateRelationships treeId items db c = .error (.notFound s i)) :
    s = "Relationship" ∧ ∃ item ∈ items, i = item.id ∧
      db.relationships.find? (matchRow item.id treeId) = none := by
  induction items generalizing db c with
  | nil => simp [updateRelationships] at h
  | cons item rest ih =>
    simp only [updateRelationships] at h
    split at h
    · rename_i hf
      have he := (Except.error.injEq _ _).mp h
      have hs := (ApiError.notFound.injEq _ _ _ _).mp he
      exact ⟨hs.1.symm, item, by simp, hs.2.symm, hf⟩
    · split at h
      · rename_i e2 happ
        have h1 : e2 = .notFound s i := (Except.error.injEq _ _).mp h
        rcases applyRelUpdate_error_shape happ with ⟨m, hm⟩
        rw [hm] at h1
        cases h1
      · rename_i db1 happ
        rcases ih h with ⟨hs, item2, hmem, hi, hnone⟩
        refine ⟨hs, item2, by simp [hmem], hi, ?_⟩
        rw [rowKeys_find?_none] at hnone ⊢
        rwa [applyRelUpdate_keys happ] at hnone

theorem updateRelationships_fail {treeId : Id}
    {item : SyncRelationshipUpdate} {items : List SyncRelationshipUpdate}
    {db : DB} {c : Nat} (hmem : item ∈ items)
    (hnone : db.relationships.find? (matchRow item.id treeId) = none) :
    ∀ out, updateRelationships treeId items db c ≠ .ok out := by
  induction items generalizing db c with
  | nil => cases hmem
  | cons it rest ih =>
    intro out h
    simp only [updateRelationships] at h
    rcases List.mem_cons.mp hmem with heq | hmem2
    · subst heq
      rw [hnone] at h
      cases h
    · split at h
      · cases h
      · split at h
        · cases h
        · rename_i db1 happ
          have hnone2 : db1.relationships.find?
              (matchRow item.id treeId) = none := by
            rw [rowKeys_find?_none, applyRelUpdate_keys happ]
            exact rowKeys_find?_none.mp hnone
          exact ih hmem2 hnone2 out h

theorem updateLinked_err {k : LinkedKind}
    (hRR : ∀ (db : DB) (rows : List EntityRow),
      k.getRows (k.setRows db rows) = rows)
    (hRJ : ∀ (db : DB) (js : List JunctionRow),
      k.getRows (k.setJunctions db js) = k.getRows db)
    {treeId : Id} {items : List SyncLinkedUpdate} {db : DB} {c : Nat}
    {s : String} {i : Id}
    (h : updateLinked k treeId items db c = .error (.notFound s i)) :
    s = k.kindName ∧ ∃ item ∈ items, i = item.id ∧
      (k.getRows db).find? (matchRow item.id treeId) = none := by
  induction items generalizing db c with
  | nil => simp [updateLinked] at h
  | cons item rest ih =>
    simp only [updateLinked] at h
    split at h
    · rename_i hf
      have he := (Except.error.injEq _ _).mp h
      have hs := (ApiError.notFound.injEq _ _ _ _).mp he
      exact ⟨hs.1.symm, item, by simp, hs.2.symm, hf⟩
    · split at h
      · rename_i e2 happ
        have h1 : e2 = .notFound s i := (Except.error.injEq _ _).mp h
        rcases applyLinkedUpdate_error_shape happ with ⟨m, hm⟩
        rw [hm] at h1
        cases h1
      · rename_i db1 happ
        rcases ih h with ⟨hs, item2, hmem, hi, hnone⟩
        refine ⟨hs, item2, by simp [hmem], hi, ?_⟩
        rw [rowKeys_find?_none] at hnone ⊢
        rwa [applyLinkedUpdate_keys hRR hRJ happ] at hnone

theorem updateLinked_fail {k : LinkedKind}
    (hRR : ∀ (db : DB) (rows : List EntityRow),
      k.getRows (k.setRows db rows) = rows)
    (hRJ : ∀ (db : DB) (js : List JunctionRow),
      k.getRows (k.setJunctions db js) = k.getRows db)
    {treeId : Id} {item : SyncLinkedUpdate} {items : List SyncLinkedUpdate}
    {db : DB} {c : Nat} (hmem : item ∈ items)
    (hnone : (k.getRows db).find? (matchRow item.id treeId) = none) :
    ∀ out, updateLinked k treeId items db c ≠ .ok out := by
  induction items generalizing db c with
  | nil => cases hmem
  | cons it rest ih =>
    intro out h
    simp only [updateLinked] at h
    rcases List.mem_cons.mp hmem with heq | hmem2
    · subst heq
      rw [hnone] at h
      cases h
    · split at h
      · cases h
      · split at h
        · cases h
        · rename_i db1 happ
          have hnone2 : (k.getRows db1).find?
              (matchRow item.id treeId) = none := by
            rw [rowKeys_find?_none, applyLinkedUpdate_keys hRR hRJ happ]
            exact rowKeys_find?_none.mp hnone
          exact ih hmem2 hnone2 out h

/-- C6 (counterexample): an update item of the TurningPoint kind whose id
(999) names no row at all is NOT a 404 — the batch succeeds with the default
response, because the sync router never processes `turning_points_update`;
the claim requires every unknown-id update item to fail the whole batch. -/
theorem sync_turning_point_update_ignored :
    (syncTree { turningPointsUpdate := [{ id := 999 }] } 0 100
      sampleDB).result = .ok {} ∧
    sampleDB.turningPoints.find? (matchRow 999 0) = none := by
  decide

/-- C6 (amended): for the kinds the update phase processes — Person,
Relationship, Event, Classification, Pattern — an update item whose id does
not name a row of that kind in the target tree makes the phase fail (it can
never return ok), every not-found error carries HTTP 404 with the correct
entity kind and an offending item's id that indeed names no row of that
kind in the tree, and any error makes the whole sync roll back to the
original store.  (TurningPoint update items are ignored wholesale by the
router — see the counterexample — and LifeEvent has no sync update list.) -/
theorem update_unknown_id_404 :
    (∀ (treeId : Id) (items : List SyncPersonUpdate) (db : DB) (c : Nat),
      (∀ item ∈ items,
        db.persons.find? (matchRow item.id treeId) = none →
        ∀ out, updatePersons treeId items db c ≠ .ok out) ∧
      (∀ e, updatePersons treeId items db c = .error e →
        ∃ item ∈ items, e = .notFound "Person" item.id ∧
          e.statusCode = 404 ∧
          db.persons.find? (matchRow item.id treeId) = none)) ∧
    (∀ (treeId : Id) (items : List SyncRelationshipUpdate) (db : DB)
      (c : Nat),
      (∀ item ∈ items,
        db.relationships.find? (matchRow item.id treeId) = none →
        ∀ out, updateRelationships treeId items db c ≠ .ok out) ∧
      (∀ s i, updateRelationships treeId items db c =
          .error (.notFound s i) →
        s = "Relationship" ∧ ∃ item ∈ items, i = item.id ∧
          db.relationships.find? (matchRow item.id treeId) = none)) ∧
    (∀ k, k ∈ ([eventsKind, classificationsKind, patternsKind] :
        List LinkedKind) →
      ∀ (treeId : Id) (items : List SyncLinkedUpdate) (db : DB) (c : Nat),
      (∀ item ∈ items,
        (k.getRows db).find? (matchRow item.id treeId) = none →
        ∀ out, updateLinked k treeId items db c ≠ .ok out) ∧
      (∀ s i, updateLinked k treeId items db c = .error (.notFound s i) →
        s = k.kindName ∧ ∃ item ∈ items, i = item.id ∧
          (k.getRows db).find? (matchRow item.id treeId) = none)) ∧
    (∀ (body : SyncRequest) (treeId : Id) (gen : Nat) (db : DB)
      (e : ApiError),
      (syncTree body treeId gen db).result = .error e →
      (syncTree body treeId gen db).db = db) := by
  refine ⟨?_, ?_, ?_, ?_⟩
  · intro treeId items db c
    refine ⟨fun item hm hn => updatePersons_fail hm hn, fun e he => ?_⟩
    rcases updatePersons_err he with ⟨item, hm, he2, hn⟩
    exact ⟨item, hm, he2, by rw [he2]; rfl, hn⟩
  · intro treeId items db c
    exact ⟨fun item hm hn => updateRelationships_fail hm hn,
      fun s i h => updateRelationships_err h⟩
  · intro k hk
    simp only [List.mem_cons, List.mem_singleton] at hk
    rcases hk with rfl | rfl | hk
    · intro treeId items db c
      exact ⟨fun item hm hn =>
          updateLinked_fail (fun _ _ => rfl) (fun _ _ => rfl) hm hn,
        fun s i h => updateLinked_err (fun _ _ => rfl) (fun _ _ => rfl) h⟩
    · intro treeId items db c
      exact ⟨fun item hm hn =>
          updateLinked_fail (fun _ _ => rfl) (fun _ _ => rfl) hm hn,
        fun s i h => updateLinked_err (fun _ _ => rfl) (fun _ _ => rfl) h⟩
    · rcases hk with rfl | hk
      swap
      · cases hk
      intro treeId items db c
      exact ⟨fun item hm hn =>
          updateLinked_fail (fun _ _ => rfl) (fun _ _ => rfl) hm hn,
        fun s i h => updateLinked_err (fun _ _ => rfl) (fun _ _ => rfl) h⟩
  · intro body treeId gen db e he
    rcases h : syncTransaction body treeId gen db with e2 | res
    · simp [syncTree, h]
    · simp [syncTree, h] at he

/-- Witness for `update_unknown_id_404`: in `sampleDB` the person id 42 and
the event id 999 name no rows, so the corresponding one-item update passes
can never succeed. -/
theorem update_unknown_id_404_witness :
    (updatePersons 0 [{ id := 42, encryptedData := "x" }] sampleDB 0 ≠
      .ok (sampleDB, 1)) ∧
    (updateLinked eventsKind 0 [{ id := 999 }] sampleDB 0 ≠
      .ok (sampleDB, 1)) :=
  ⟨(update_unknown_id_404.1 0 [{ id := 42, encryptedData := "x" }]
      sampleDB 0).1 { id := 42, encryptedData := "x" }
      (List.mem_singleton.mpr rfl) (by decide) (sampleDB, 1),
   (update_unknown_id_404.2.2.1 eventsKind (List.mem_cons_self _ _)
      0 [{ id := 999 }] sampleDB 0).1 { id := 999 }
      (List.mem_singleton.mpr rfl) (by decide) (sampleDB, 1)⟩

-- ## C7: the omitted / empty / non-empty distinction for person_ids

theorem setLinkedBlob_junctions {k : LinkedKind}
    (hJR : ∀ (db : DB) (rows : List EntityRow),
      k.getJunctions (k.setRows db rows) = k.getJunctions db)
    (entityId treeId : Id) (edata : Option String) (db : DB) :
    k.getJunctions (setLinkedBlob k entityId treeId edata db) =
      k.getJunctions db := by
  unfold setLinkedBlob
  split
  · rfl
  · exact hJR _ _

theorem setLinkedBlob_persons {k : LinkedKind}
    (hPR : ∀ (db : DB) (rows : List EntityRow),
      (k.setRows db rows).persons = db.persons)
    (entityId treeId : Id) (edata : Option String) (db : DB) :
    (setLinkedBlob k entityId treeId edata db).persons = db.persons := by
  unfold setLinkedBlob
  split
  · rfl
  · exact hPR _ _

theorem treePersonIds_congr {db1 db2 : DB} (h : db1.persons = db2.persons)
    (treeId : Id) : treePersonIds db1 treeId = treePersonIds db2 treeId := by
  unfold treePersonIds
  rw [h]

theorem linkedKind_tristate (k : LinkedKind)
    (hRR : ∀ (db : DB) (rows : List EntityRow),
      k.getRows (k.setRows db rows) = rows)
    (hJR : ∀ (db : DB) (rows : List EntityRow),
      k.getJunctions (k.setRows db rows) = k.getJunctions db)
    (hRJ : ∀ (db : DB) (js : List JunctionRow),
      k.getRows (k.setJunctions db js) = k.getRows db)
    (hJJ : ∀ (db : DB) (js : List JunctionRow),
      k.getJunctions (k.setJunctions db js) = js)
    (hPR : ∀ (db : DB) (rows : List EntityRow),
      (k.setRows db rows).persons = db.persons) :
    (∀ (entityId treeId : Id) (edata : Option String) (db db2 : DB),
      updateEntity k entityId treeId edata none db = .ok db2 →
      k.getJunctions db2 = k.getJunctions db ∧
      rowKeys (k.getRows db2) = rowKeys (k.getRows db)) ∧
    (∀ (entityId treeId : Id) (edata : Option String) (pids : List Id)
      (db db2 : DB),
      updateEntity k entityId treeId edata (some pids) db = .ok db2 →
      k.getJunctions db2 =
        ((k.getJunctions db).filter (fun j => !(j.entityId == entityId))) ++
          pids.map (fun pid =>
            ({ entityId := entityId, personId := pid } : JunctionRow)) ∧
      rowKeys (k.getRows db2) = rowKeys (k.getRows db) ∧
      (∀ i ∈ pids, i ∈ treePersonIds db treeId)) ∧
    (∀ (item : SyncLinkedUpdate) (treeId : Id) (db db2 : DB),
      applyLinkedUpdate k item treeId db = .ok db2 →
      (item.personIds = none →
        k.getJunctions db2 = k.getJunctions db) ∧
      (∀ pids, item.personIds = some pids →
        k.getJunctions db2 =
          ((k.getJunctions db).filter (fun j => !(j.entityId == item.id))) ++
            pids.map (fun pid =>
              ({ entityId := item.id, personId := pid } : JunctionRow)) ∧
        (∀ i ∈ pids, i ∈ treePersonIds db treeId))) := by
  refine ⟨?_, ?_, ?_⟩
  · intro entityId treeId edata db db2 h
    simp only [updateEntity] at h
    split at h
    · cases h
    · have := (Except.ok.injEq _ _).mp h
      subst this
      exact ⟨setLinkedBlob_junctions hJR _ _ _ db,
        setLinkedBlob_keys hRR _ _ _ db⟩
  · intro entityId treeId edata pids db db2 h
    simp only [updateEntity] at h
    split at h
    · cases h
    · split at h
      · cases h
      · rename_i hv
        have := (Except.ok.injEq _ _).mp h
        subst this
        refine ⟨?_, ?_, ?_⟩
        · rw [replaceLinkedJunctions, hJJ,
            setLinkedBlob_junctions hJR _ _ _ db]
        · rw [replaceLinkedJunctions, hRJ]
          exact setLinkedBlob_keys hRR _ _ _ db
        · intro i hi
          have hall := validate_ok_iff.mp hv i hi
          rwa [treePersonIds_congr
            (setLinkedBlob_persons hPR entityId treeId edata db) treeId]
            at hall
  · intro item treeId db db2 h
    constructor
    · intro hnone
      simp only [applyLinkedUpdate, hnone] at h
      have := (Except.ok.injEq _ _).mp h
      subst this
      exact setLinkedBlob_junctions hJR _ _ _ db
    · intro pids hsome
      simp only [applyLinkedUpdate, hsome] at h
      split at h
      · cases h
      · rename_i hv
        have := (Except.ok.injEq _ _).mp h
        subst this
        refine ⟨?_, ?_⟩
        · rw [replaceLinkedJunctions, hJJ,
            setLinkedBlob_junctions hJR _ _ _ db]
        · intro i hi
          have hall := validate_ok_iff.mp hv i hi
          rwa [treePersonIds_congr
            (setLinkedBlob_persons hPR item.id treeId item.encryptedData db)
            treeId] at hall

/-- C7 (counterexample): the sync update phase does NOT preserve the
three-way person_ids distinction for the TurningPoint kind: updating turning
point 8 of `sampleDB` with `person_ids: []` — which the claim says must
remove the junction row (8, 1) while keeping the row — is ignored
completely: the batch succeeds with the default response and the store,
junction row included, is untouched. -/
theorem sync_turning_point_empty_person_ids_ignored :
    syncTree { turningPointsUpdate := [{ id := 8, personIds := some [] }] }
      0 100 sampleDB = { db := sampleDB, result := .ok {} } ∧
    (⟨8, 1⟩ : JunctionRow) ∈ sampleDB.turningPointPersons := by
  decide

/-- C7 (amended): for every linked-entity kind, the single-record update
path (`crud_helpers.update_entity`, used by the events/life-events/
turning-points/classifications/patterns routers) preserves the three-way
distinction — `person_ids` omitted leaves the junction rows unchanged,
`[]` removes exactly the entity's junction rows while the entity row
remains (its key set is unchanged), and a non-empty list replaces the
entity's association set with exactly the given persons after validating
their tree membership; the sync update phase does the same through
`applyLinkedUpdate`, but only invokes it for Event, Classification and
Pattern items — TurningPoint update items are ignored (see the
counterexample) and LifeEvent is absent from the sync schema. -/
theorem linked_person_ids_tristate :
    ∀ k ∈ ([eventsKind, classificationsKind, patternsKind,
        turningPointsKind, lifeEventsKind] : List LinkedKind),
    (∀ (entityId treeId : Id) (edata : Option String) (db db2 : DB),
      updateEntity k entityId treeId edata none db = .ok db2 →
      k.getJunctions db2 = k.getJunctions db ∧
      rowKeys (k.getRows db2) = rowKeys (k.getRows db)) ∧
    (∀ (entityId treeId : Id) (edata : Option String) (pids : List Id)
      (db db2 : DB),
      updateEntity k entityId treeId edata (some pids) db = .ok db2 →
      k.getJunctions db2 =
        ((k.getJunctions db).filter (fun j => !(j.entityId == entityId))) ++
          pids.map (fun pid =>
            ({ entityId := entityId, personId := pid } : JunctionRow)) ∧
      rowKeys (k.getRows db2) = rowKeys (k.getRows db) ∧
      (∀ i ∈ pids, i ∈ treePersonIds db treeId)) ∧
    (∀ (item : SyncLinkedUpdate) (treeId : Id) (db db2 : DB),
      applyLinkedUpdate k item treeId db = .ok db2 →
      (item.personIds = none →
        k.getJunctions db2 = k.getJunctions db) ∧
      (∀ pids, item.personIds = some pids →
        k.getJunctions db2 =
          ((k.getJunctions db).filter (fun j => !(j.entityId == item.id))) ++
            pids.map (fun pid =>
              ({ entityId := item.id, personId := pid } : JunctionRow)) ∧
        (∀ i ∈ pids, i ∈ treePersonIds db treeId))) := by
  intro k hk
  simp only [List.mem_cons, List.not_mem_nil, or_false] at hk
  rcases hk with rfl | rfl | rfl | rfl | rfl
  all_goals
    exact linkedKind_tristate _ (fun _ _ => rfl) (fun _ _ => rfl)
      (fun _ _ => rfl) (fun _ _ => rfl) (fun _ _ => rfl)

/-- Witness for `linked_person_ids_tristate`: updating turning point 8 of
`sampleDB` through the single-record path with `person_ids = []` clears its
junction row (8, 1) and keeps the entity row. -/
theorem linked_person_ids_tristate_witness :
    turningPointsKind.getJunctions
        { sampleDB with turningPointPersons := [] } =
      ((turningPointsKind.getJunctions sampleDB).filter
        (fun j => !(j.entityId == 8))) ++
        ([] : List Id).map (fun pid =>
          ({ entityId := 8, personId := pid } : JunctionRow)) ∧
    rowKeys (turningPointsKind.getRows
        { sampleDB with turningPointPersons := [] }) =
      rowKeys (turningPointsKind.getRows sampleDB) ∧
    (∀ i ∈ ([] : List Id), i ∈ treePersonIds sampleDB 0) :=
  (linked_person_ids_tristate turningPointsKind
      (List.mem_cons_of_mem _ (List.mem_cons_of_mem _
        (List.mem_cons_of_mem _ (List.mem_cons_self _ _))))).2.1
    8 0 none [] sampleDB { sampleDB with turningPointPersons := [] }
    (by decide)

-- ## Positive create-phase bookkeeping (the kinds the router does process)

theorem specCreatedIds_length (gen : Nat) (l : List (Option Id)) :
    (specCreatedIds gen l).length = l.length := by
  induction l generalizing gen with
  | nil => rfl
  | cons hd tl ih =>
    cases hd with
    | none => simp [specCreatedIds, ih]
    | some c => simp [specCreatedIds, ih]

/-- The created-id list returned by `_create_encrypted_entities` is exactly
the spec-side assignment `specCreatedIds`: in input order, the client id
when present, the next fresh id otherwise; and the created rows correspond
positionally to (id, input item) pairs.  The relationship-create loop
behaves identically. -/
theorem createdIds_spec {ρ β : Type} (mk : Id → Id → String → ρ)
    (getId : β → Option Id) (getData : β → String) (treeId : Id)
    (items : List β) (gen : Nat) :
    (createEncryptedEntities mk getId getData treeId items gen).2.1 =
      specCreatedIds gen (items.map getId) ∧
    (createEncryptedEntities mk getId getData treeId items gen).1 =
      List.zipWith (fun i item => mk i treeId (getData item))
        (createEncryptedEntities mk getId getData treeId items gen).2.1
        items ∧
    (∀ (rels : List SyncRelationshipCreate) (g : Nat),
      (createRelationships treeId rels g).2.1 =
        specCreatedIds g (rels.map (fun item => item.id))) := by
  refine ⟨?_, ?_, ?_⟩
  · induction items generalizing gen with
    | nil => rfl
    | cons item rest ih =>
      simp only [createEncryptedEntities, List.map_cons]
      cases hgi : getId item with
      | none => simp [hgi, specCreatedIds, ih]
      | some c => simp [hgi, specCreatedIds, ih]
  · induction items generalizing gen with
    | nil => rfl
    | cons item rest ih =>
      simp only [createEncryptedEntities]
      cases hgi : getId item with
      | none => simp [hgi, List.zipWith, ih]
      | some c => simp [hgi, List.zipWith, ih]
  · intro rels
    induction rels with
    | nil => intro g; rfl
    | cons item rest ih =>
      intro g
      simp only [createRelationships, List.map_cons]
      cases hgi : item.id with
      | none => simp [hgi, specCreatedIds, ih]
      | some c => simp [hgi, specCreatedIds, ih]

-- ## C10 frame lemmas

theorem tableFrame_refl [TreeRow α] (treeId : Id) (l : List α) :
    tableFrame treeId l l :=
  ⟨rfl, fun _ hr => Or.inl hr⟩

theorem tableFrame_of_eq [TreeRow α] {treeId : Id} {a b : List α}
    (h : a = b) : tableFrame treeId a b :=
  h ▸ tableFrame_refl treeId a

theorem tableFrame_trans [TreeRow α] {treeId : Id} {a b c : List α}
    (h1 : tableFrame treeId a b) (h2 : tableFrame treeId b c) :
    tableFrame treeId a c := by
  refine ⟨h2.1.trans h1.1, fun r hr => ?_⟩
  rcases h2.2 r hr with h | h
  · exact h1.2 r h
  · exact Or.inr h

theorem tableFrame_deleteByTree [TreeRow α] (treeId : Id)
    (items : List SyncDelete) (rows : List α) :
    tableFrame treeId rows (deleteByTree treeId items rows).1 :=
  ⟨deleteByTree_filter_other treeId items rows,
   fun _ hr =>
     Or.inl (List.Sublist.mem hr (deleteByTree_sublist treeId items rows))⟩

theorem tableFrame_append [TreeRow α] {treeId : Id} {l new : List α}
    (h : ∀ r ∈ new, TreeRow.rowTreeId r = treeId) :
    tableFrame treeId l (l ++ new) := by
  constructor
  · rw [List.filter_append]
    have hnil : new.filter (fun r => !(TreeRow.rowTreeId r == treeId)) = [] := by
      rw [List.filter_eq_nil_iff]
      intro r hr
      simp [h r hr]
    rw [hnil, List.append_nil]
  · intro r hr
    rcases List.mem_append.mp hr with h1 | h1
    · exact Or.inl h1
    · exact Or.inr (h r h1)

theorem tableFrame_modifyP [TreeRow α] {treeId : Id} (id : Id) (f : α → α)
    (hf : ∀ r : α, TreeRow.rowTreeId (f r) = TreeRow.rowTreeId r)
    (l : List α) :
    tableFrame treeId l (modifyP (matchRow id treeId) f l) := by
  constructor
  · apply modifyP_filter_of_ne
    intro r hr
    simp only [matchRow, Bool.and_eq_true, beq_iff_eq] at hr
    constructor
    · simp [hr.2]
    · simp [hf r, hr.2]
  · intro r hr
    rcases mem_modifyP hr with h | ⟨r₀, hr₀, hp, rfl⟩
    · exact Or.inl h
    · simp only [matchRow, Bool.and_eq_true, beq_iff_eq] at hp
      exact Or.inr (by rw [hf r₀, hp.2])

theorem updatePersons_frame {treeId : Id} {items : List SyncPersonUpdate}
    {db : DB} {c : Nat} {out : DB × Nat}
    (h : updatePersons treeId items db c = .ok out) :
    tableFrame treeId db.persons out.1.persons := by
  induction items generalizing db c with
  | nil =>
    simp only [updatePersons] at h
    have := (Except.ok.injEq _ _).mp h
    subst this
    exact tableFrame_refl _ _
  | cons item rest ih =>
    simp only [updatePersons] at h
    split at h
    · cases h
    · exact tableFrame_trans
        (tableFrame_modifyP item.id
          (fun p : PersonRow => { p with encryptedData := item.encryptedData })
          (fun r => rfl) db.persons) (ih h)

theorem setRelBlob_frame (item : SyncRelationshipUpdate) (treeId : Id)
    (db : DB) :
    tableFrame treeId db.relationships
      (setRelBlob item treeId db).relationships := by
  unfold setRelBlob
  split
  · exact tableFrame_refl _ _
  · rename_i d hd
    exact tableFrame_modifyP item.id
      (fun r : RelationshipRow => { r with encryptedData := d })
      (fun r => rfl) db.relationships

theorem applyRelTarget_frame {item : SyncRelationshipUpdate} {treeId : Id}
    {db db2 : DB} (h : applyRelTarget item treeId db = .ok db2) :
    tableFrame treeId db.relationships db2.relationships := by
  unfold applyRelTarget at h
  split at h
  · have := (Except.ok.injEq _ _).mp h
    subst this
    exact setRelBlob_frame item treeId db
  · rename_i tid htid
    split at h
    · cases h
    · have := (Except.ok.injEq _ _).mp h
      subst this
      exact tableFrame_trans
        (tableFrame_modifyP item.id
          (fun r : RelationshipRow => { r with targetPersonId := tid })
          (fun r => rfl) db.relationships)
        (setRelBlob_frame item treeId _)

theorem applyRelUpdate_frame {item : SyncRelationshipUpdate} {treeId : Id}
    {db db2 : DB} (h : applyRelUpdate item treeId db = .ok db2) :
    tableFrame treeId db.relationships db2.relationships := by
  unfold applyRelUpdate at h
  split at h
  · exact applyRelTarget_frame h
  · rename_i sid hsid
    split at h
    · cases h
    · exact tableFrame_trans
        (tableFrame_modifyP item.id
          (fun r : RelationshipRow => { r with sourcePersonId := sid })
          (fun r => rfl) db.relationships)
        (applyRelTarget_frame h)

theorem updateRelationships_frame {treeId : Id}
    {items : List SyncRelationshipUpdate} {db : DB} {c : Nat}
    {out : DB × Nat} (h : updateRelationships treeId items db c = .ok out) :
    tableFrame treeId db.relationships out.1.relationships := by
  induction items generalizing db c with
  | nil =>
    simp only [updateRelationships] at h
    have := (Except.ok.injEq _ _).mp h
    subst this
    exact tableFrame_refl _ _
  | cons item rest ih =>
    simp only [updateRelationships] at h
    split at h
    · cases h
    · split at h
      · cases h
      · rename_i db1 happ
        exact tableFrame_trans (applyRelUpdate_frame happ) (ih h)

theorem setLinkedBlob_frame {k : LinkedKind}
    (hRR : ∀ (db : DB) (rows : List EntityRow),
      k.getRows (k.setRows db rows) = rows)
    (entityId treeId : Id) (edata : Option String) (db : DB) :
    tableFrame treeId (k.getRows db)
      (k.getRows (setLinkedBlob k entityId treeId edata db)) := by
  unfold setLinkedBlob
  split
  · exact tableFrame_refl _ _
  · rename_i d
    rw [hRR]
    exact tableFrame_modifyP entityId
      (fun r : EntityRow => { r with encryptedData := d })
      (fun r => rfl) (k.getRows db)

theorem applyLinkedUpdate_frame {k : LinkedKind}
    (hRR : ∀ (db : DB) (rows : List EntityRow),
      k.getRows (k.setRows db rows) = rows)
    (hRJ : ∀ (db : DB) (js : List JunctionRow),
      k.getRows (k.setJunctions db js) = k.getRows db)
    {item : SyncLinkedUpdate} {treeId : Id} {db db2 : DB}
    (h : applyLinkedUpdate k item treeId db = .ok db2) :
    tableFrame treeId (k.getRows db) (k.getRows db2) := by
  unfold applyLinkedUpdate at h
  split at h
  · have := (Except.ok.injEq _ _).mp h
    subst this
    exact setLinkedBlob_frame hRR _ _ _ db
  · split at h
    · cases h
    · have := (Except.ok.injEq _ _).mp h
      subst this
      exact tableFrame_trans (setLinkedBlob_frame hRR _ _ _ db)
        (tableFrame_of_eq (by rw [replaceLinkedJunctions, hRJ]))

theorem updateLinked_frame {k : LinkedKind}
    (hRR : ∀ (db : DB) (rows : List EntityRow),
      k.getRows (k.setRows db rows) = rows)
    (hRJ : ∀ (db : DB) (js : List JunctionRow),
      k.getRows (k.setJunctions db js) = k.getRows db)
    {treeId : Id} {items : List SyncLinkedUpdate} {db : DB} {c : Nat}
    {out : DB × Nat} (h : updateLinked k treeId items db c = .ok out) :
    tableFrame treeId (k.getRows db) (k.getRows out.1) := by
  induction items generalizing db c with
  | nil =>
    simp only [updateLinked] at h
    have := (Except.ok.injEq _ _).mp h
    subst this
    exact tableFrame_refl _ _
  | cons item rest ih =>
    simp only [updateLinked] at h
    split at h
    · cases h
    · split at h
      · cases h
      · rename_i db1 happ
        exact tableFrame_trans (applyLinkedUpdate_frame hRR hRJ happ) (ih h)

theorem createEncryptedEntities_treeId {ρ β : Type} [TreeRow ρ]
    (mk : Id → Id → String → ρ) (getId : β → Option Id)
    (getData : β → String)
    (hmk : ∀ (i t : Id) (d : String), TreeRow.rowTreeId (mk i t d) = t)
    (treeId : Id) (items : List β) (gen : Nat) :
    ∀ r ∈ (createEncryptedEntities mk getId getData treeId items gen).1,
      TreeRow.rowTreeId r = treeId := by
  induction items generalizing gen with
  | nil =>
    intro r hr
    simp [createEncryptedEntities] at hr
  | cons item rest ih =>
    intro r hr
    simp only [createEncryptedEntities, List.mem_cons] at hr
    rcases hr with rfl | hr
    · exact hmk _ _ _
    · exact ih _ r hr

theorem createRelationships_treeId (treeId : Id)
    (items : List SyncRelationshipCreate) (gen : Nat) :
    ∀ r ∈ (createRelationships treeId items gen).1, r.treeId = treeId := by
  induction items generalizing gen with
  | nil =>
    intro r hr
    simp [createRelationships] at hr
  | cons item rest ih =>
    intro r hr
    simp only [createRelationships, List.mem_cons] at hr
    rcases hr with rfl | hr
    · rfl
    · exact ih _ r hr

theorem phaseDeletes_frame (body : SyncRequest) (treeId : Id) (db : DB)
    (resp : SyncResponse) :
    tableFrame treeId db.persons
      (phaseDeletes body treeId db resp).1.persons ∧
    tableFrame treeId db.relationships
      (phaseDeletes body treeId db resp).1.relationships ∧
    tableFrame treeId db.events
      (phaseDeletes body treeId db resp).1.events ∧
    tableFrame treeId db.classifications
      (phaseDeletes body treeId db resp).1.classifications ∧
    tableFrame treeId db.patterns
      (phaseDeletes body treeId db resp).1.patterns ∧
    (phaseDeletes body treeId db resp).1.turningPoints = db.turningPoints ∧
    (phaseDeletes body treeId db resp).1.lifeEvents = db.lifeEvents :=
  ⟨tableFrame_deleteByTree treeId body.personsDelete db.persons,
   tableFrame_deleteByTree treeId body.relationshipsDelete db.relationships,
   tableFrame_deleteByTree treeId body.eventsDelete db.events,
   tableFrame_deleteByTree treeId body.classificationsDelete
     db.classifications,
   tableFrame_deleteByTree treeId body.patternsDelete db.patterns,
   rfl, rfl⟩

theorem phaseCreates_frame {body : SyncRequest} {treeId : Id} {gen : Nat}
    {db : DB} {resp : SyncResponse} {out : DB × SyncResponse × Nat}
    (h : phaseCreates body treeId gen db resp = .ok out) :
    tableFrame treeId db.persons out.1.persons ∧
    tableFrame treeId db.relationships out.1.relationships ∧
    tableFrame treeId db.events out.1.events ∧
    tableFrame treeId db.classifications out.1.classifications ∧
    tableFrame treeId db.patterns out.1.patterns ∧
    out.1.turningPoints = db.turningPoints ∧
    out.1.lifeEvents = db.lifeEvents := by
  simp only [phaseCreates] at h
  split at h
  · cases h
  · have := (Except.ok.injEq _ _).mp h
    subst this
    refine ⟨?_, ?_, ?_, ?_, ?_, rfl, rfl⟩
    · exact tableFrame_append (createEncryptedEntities_treeId _ _ _
        (fun i t d => rfl) treeId body.personsCreate gen)
    · exact tableFrame_append
        (createRelationships_treeId treeId body.relationshipsCreate _)
    · exact tableFrame_append (createEncryptedEntities_treeId _ _ _
        (fun i t d => rfl) treeId body.eventsCreate _)
    · exact tableFrame_append (createEncryptedEntities_treeId _ _ _
        (fun i t d => rfl) treeId body.classificationsCreate _)
    · exact tableFrame_append (createEncryptedEntities_treeId _ _ _
        (fun i t d => rfl) treeId body.patternsCreate _)

theorem phaseUpdates_frame {body : SyncRequest} {treeId : Id} {db : DB}
    {resp : SyncResponse} {out : DB × SyncResponse}
    (h : phaseUpdates body treeId db resp = .ok out) :
    tableFrame treeId db.persons out.1.persons ∧
    tableFrame treeId db.relationships out.1.relationships ∧
    tableFrame treeId db.events out.1.events ∧
    tableFrame treeId db.classifications out.1.classifications ∧
    tableFrame treeId db.patterns out.1.patterns ∧
    out.1.turningPoints = db.turningPoints ∧
    out.1.lifeEvents = db.lifeEvents := by
  simp only [phaseUpdates] at h
  split at h
  · cases h
  · rename_i pu hpu
    split at h
    · cases h
    · rename_i ru hru
      split at h
      · cases h
      · rename_i eu heu
        split at h
        · cases h
        · rename_i cu hcu
          split at h
          · cases h
          · rename_i patu hpatu
            have := (Except.ok.injEq _ _).mp h
            subst this
            have hpP := updatePersons_frame hpu
            have hpR : pu.1.relationships = db.relationships :=
              updatePersons_preserves (fun d => d.relationships)
                (fun _ _ => rfl) _ hpu
            have hpE : pu.1.events = db.events :=
              updatePersons_preserves (fun d => d.events)
                (fun _ _ => rfl) _ hpu
            have hpC : pu.1.classifications = db.classifications :=
              updatePersons_preserves (fun d => d.classifications)
                (fun _ _ => rfl) _ hpu
            have hpPat : pu.1.patterns = db.patterns :=
              updatePersons_preserves (fun d => d.patterns)
                (fun _ _ => rfl) _ hpu
            have hpT : pu.1.turningPoints = db.turningPoints :=
              updatePersons_preserves (fun d => d.turningPoints)
                (fun _ _ => rfl) _ hpu
            have hpL : pu.1.lifeEvents = db.lifeEvents :=
              updatePersons_preserves (fun d => d.lifeEvents)
                (fun _ _ => rfl) _ hpu
            have hrR := updateRelationships_frame hru
            have hrP : ru.1.persons = pu.1.persons :=
              updateRelationships_preserves (fun d => d.persons)
                (fun _ _ => rfl) _ hru
            have hrE : ru.1.events = pu.1.events :=
              updateRelationships_preserves (fun d => d.events)
                (fun _ _ => rfl) _ hru
            have hrC : ru.1.classifications = pu.1.classifications :=
              updateRelationships_preserves (fun d => d.classifications)
                (fun _ _ => rfl) _ hru
            have hrPat : ru.1.patterns = pu.1.patterns :=
              updateRelationships_preserves (fun d => d.patterns)
                (fun _ _ => rfl) _ hru
            have hrT : ru.1.turningPoints = pu.1.turningPoints :=
              updateRelationships_preserves (fun d => d.turningPoints)
                (fun _ _ => rfl) _ hru
            have hrL : ru.1.lifeEvents = pu.1.lifeEvents :=
              updateRelationships_preserves (fun d => d.lifeEvents)
                (fun _ _ => rfl) _ hru
            have heE : tableFrame treeId ru.1.events eu.1.events :=
              updateLinked_frame (fun _ _ => rfl) (fun _ _ => rfl) heu
            have heP : eu.1.persons = ru.1.persons :=
              updateLinked_preserves (fun d => d.persons)
                (fun _ _ => rfl) (fun _ _ => rfl) _ heu
            have heR : eu.1.relationships = ru.1.relationships :=
              updateLinked_preserves (fun d => d.relationships)
                (fun _ _ => rfl) (fun _ _ => rfl) _ heu
            have heC : eu.1.classifications = ru.1.classifications :=
              updateLinked_preserves (fun d => d.classifications)
                (fun _ _ => rfl) (fun _ _ => rfl) _ heu
            have hePat : eu.1.patterns = ru.1.patterns :=
              updateLinked_preserves (fun d => d.patterns)
                (fun _ _ => rfl) (fun _ _ => rfl) _ heu
            have heT : eu.1.turningPoints = ru.1.turningPoints :=
              updateLinked_preserves (fun d => d.turningPoints)
                (fun _ _ => rfl) (fun _ _ => rfl) _ heu
            have heL : eu.1.lifeEvents = ru.1.lifeEvents :=
              updateLinked_preserves (fun d => d.lifeEvents)
                (fun _ _ => rfl) (fun _ _ => rfl) _ heu
            have hcC : tableFrame treeId eu.1.classifications
                cu.1.classifications :=
              updateLinked_frame (fun _ _ => rfl) (fun _ _ => rfl) hcu
            have hcP : cu.1.persons = eu.1.persons :=
              updateLinked_preserves (fun d => d.persons)
                (fun _ _ => rfl) (fun _ _ => rfl) _ hcu
            have hcR : cu.1.relationships = eu.1.relationships :=
              updateLinked_preserves (fun d => d.relationships)
                (fun _ _ => rfl) (fun _ _ => rfl) _ hcu
            have hcE : cu.1.events = eu.1.events :=
              updateLinked_preserves (fun d => d.events)
                (fun _ _ => rfl) (fun _ _ => rfl) _ hcu
            have hcPat : cu.1.patterns = eu.1.patterns :=
              updateLinked_preserves (fun d => d.patterns)
                (fun _ _ => rfl) (fun _ _ => rfl) _ hcu
            have hcT : cu.1.turningPoints = eu.1.turningPoints :=
              updateLinked_preserves (fun d => d.turningPoints)
                (fun _ _ => rfl) (fun _ _ => rfl) _ hcu
            have hcL : cu.1.lifeEvents = eu.1.lifeEvents :=
              updateLinked_preserves (fun d => d.lifeEvents)
                (fun _ _ => rfl) (fun _ _ => rfl) _ hcu
            have hpatPat : tableFrame treeId cu.1.patterns
                patu.1.patterns :=
              updateLinked_frame (fun _ _ => rfl) (fun _ _ => rfl) hpatu
            have hpatP : patu.1.persons = cu.1.persons :=
              updateLinked_preserves (fun d => d.persons)
                (fun _ _ => rfl) (fun _ _ => rfl) _ hpatu
            have hpatR : patu.1.relationships = cu.1.relationships :=
              updateLinked_preserves (fun d => d.relationships)
                (fun _ _ => rfl) (fun _ _ => rfl) _ hpatu
            have hpatE : patu.1.events = cu.1.events :=
              updateLinked_preserves (fun d => d.events)
                (fun _ _ => rfl) (fun _ _ => rfl) _ hpatu
            have hpatC : patu.1.classifications = cu.1.classifications :=
              updateLinked_preserves (fun d => d.classifications)
                (fun _ _ => rfl) (fun _ _ => rfl) _ hpatu
            have hpatT : patu.1.turningPoints = cu.1.turningPoints :=
              updateLinked_preserves (fun d => d.turningPoints)
                (fun _ _ => rfl) (fun _ _ => rfl) _ hpatu
            have hpatL : patu.1.lifeEvents = cu.1.lifeEvents :=
              updateLinked_preserves (fun d => d.lifeEvents)
                (fun _ _ => rfl) (fun _ _ => rfl) _ hpatu
            refine ⟨?_, ?_, ?_, ?_, ?_, ?_, ?_⟩
            · exact tableFrame_trans hpP (tableFrame_of_eq
                (hpatP.trans (hcP.trans (heP.trans hrP))).symm)
            · exact tableFrame_trans (tableFrame_of_eq hpR.symm)
                (tableFrame_trans hrR (tableFrame_of_eq
                  (hpatR.trans (hcR.trans heR)).symm))
            · exact tableFrame_trans (tableFrame_of_eq
                (hrE.trans hpE).symm)
                (tableFrame_trans heE (tableFrame_of_eq
                  (hpatE.trans hcE).symm))
            · exact tableFrame_trans (tableFrame_of_eq
                (heC.trans (hrC.trans hpC)).symm)
                (tableFrame_trans hcC (tableFrame_of_eq hpatC.symm))
            · exact tableFrame_trans (tableFrame_of_eq
                (hcPat.trans (hePat.trans (hrPat.trans hpPat))).symm)
                hpatPat
            · rw [hpatT, hcT, heT, hrT, hpT]
            · rw [hpatL, hcL, heL, hrL, hpL]

/-- C10: every read and mutation of the sync reconciler is scoped to the
target tree.  On success: for each entity table, rows of every other tree
are exactly preserved and every surviving or new row either already existed
or carries the target tree's id (creates tag rows with the target tree id;
updates only touch rows fetched by (id, tree_id)); the turning-point and
life-event tables are untouched entirely.  A delete item whose id names no
row of the target tree (in particular, a row of a different tree) removes
nothing and counts nothing, and a person-update item in the same situation
fails with 404 exactly as if the row did not exist. -/
theorem sync_tree_scoped (body : SyncRequest) (treeId : Id) (gen : Nat)
    (db : DB) :
    (∀ resp, (syncTree body treeId gen db).result = .ok resp →
      tableFrame treeId db.persons
        (syncTree body treeId gen db).db.persons ∧
      tableFrame treeId db.relationships
        (syncTree body treeId gen db).db.relationships ∧
      tableFrame treeId db.events
        (syncTree body treeId gen db).db.events ∧
      tableFrame treeId db.classifications
        (syncTree body treeId gen db).db.classifications ∧
      tableFrame treeId db.patterns
        (syncTree body treeId gen db).db.patterns ∧
      (syncTree body treeId gen db).db.turningPoints = db.turningPoints ∧
      (syncTree body treeId gen db).db.lifeEvents = db.lifeEvents) ∧
    (∀ item : SyncDelete,
      db.persons.find? (matchRow item.id treeId) = none →
      deleteByTree treeId [item] db.persons = (db.persons, 0)) ∧
    (∀ item : SyncPersonUpdate,
      db.persons.find? (matchRow item.id treeId) = none →
      updatePersons treeId [item] db 0 =
        .error (.notFound "Person" item.id)) := by
  refine ⟨?_, ?_, ?_⟩
  · intro resp hresp
    rcases htx : syncTransaction body treeId gen db with e | res
    · simp [syncTree, htx] at hresp
    · rcases syncTransaction_ok_destruct htx with ⟨c, u, hc, hu, hres⟩
      subst hres
      simp only [syncTree, htx]
      have hd := phaseDeletes_frame body treeId db ({} : SyncResponse)
      have hcf := phaseCreates_frame hc
      have huf := phaseUpdates_frame hu
      refine ⟨?_, ?_, ?_, ?_, ?_, ?_, ?_⟩
      · exact tableFrame_trans hd.1 (tableFrame_trans hcf.1 huf.1)
      · exact tableFrame_trans hd.2.1 (tableFrame_trans hcf.2.1 huf.2.1)
      · exact tableFrame_trans hd.2.2.1
          (tableFrame_trans hcf.2.2.1 huf.2.2.1)
      · exact tableFrame_trans hd.2.2.2.1
          (tableFrame_trans hcf.2.2.2.1 huf.2.2.2.1)
      · exact tableFrame_trans hd.2.2.2.2.1
          (tableFrame_trans hcf.2.2.2.2.1 huf.2.2.2.2.1)
      · rw [huf.2.2.2.2.2.1, hcf.2.2.2.2.2.1, hd.2.2.2.2.2.1]
      · rw [huf.2.2.2.2.2.2, hcf.2.2.2.2.2.2, hd.2.2.2.2.2.2]
  · intro item hnone
    simp [deleteByTree, hnone]
  · intro item hnone
    simp [updatePersons, hnone]

/-- Witness for `sync_tree_scoped`: a successful sync against tree 0 of
`sampleDB` (delete person 1, create one person) leaves person 2 — a row of
tree 5 — in place within the frame relation; and the tree-5 person 2 is
treated as nonexistent by tree 0's delete (skipped, count 0) and update
(404). -/
theorem sync_tree_scoped_witness :
    tableFrame 0 sampleDB.persons
      [⟨2, 5, "q"⟩, ⟨7, 0, "p7"⟩, ⟨100, 0, "n"⟩] ∧
    deleteByTree 0 [⟨2⟩] sampleDB.persons = (sampleDB.persons, 0) ∧
    updatePersons 0 [{ id := 2, encryptedData := "x" }] sampleDB 0 =
      .error (.notFound "Person" 2) :=
  ⟨((sync_tree_scoped
      { personsCreate := [{ encryptedData := "n" }],
        personsDelete := [⟨1⟩] } 0 100 sampleDB).1
      { personsCreated := [100], personsDeleted := 1 } (by decide)).1,
   (sync_tree_scoped {} 0 100 sampleDB).2.1 ⟨2⟩ (by decide),
   (sync_tree_scoped {} 0 100 sampleDB).2.2
     { id := 2, encryptedData := "x" } (by decide)⟩

-- ## C1: rollback on failure, full application of the processed kinds

theorem updatePersons_count {treeId : Id} {items : List SyncPersonUpdate}
    {db : DB} {c : Nat} {out : DB × Nat}
    (h : updatePersons treeId items db c = .ok out) :
    out.2 = c + items.length := by
  induction items generalizing db c with
  | nil =>
    simp only [updatePersons] at h
    have := (Except.ok.injEq _ _).mp h
    subst this
    simp
  | cons item rest ih =>
    simp only [updatePersons] at h
    split at h
    · cases h
    · have := ih h
      simp only [List.length_cons]
      omega

theorem updateRelationships_count {treeId : Id}
    {items : List SyncRelationshipUpdate} {db : DB} {c : Nat}
    {out : DB × Nat} (h : updateRelationships treeId items db c = .ok out) :
    out.2 = c + items.length := by
  induction items generalizing db c with
  | nil =>
    simp only [updateRelationships] at h
    have := (Except.ok.injEq _ _).mp h
    subst this
    simp
  | cons item rest ih =>
    simp only [updateRelationships] at h
    split at h
    · cases h
    · split at h
      · cases h
      · have := ih h
        simp only [List.length_cons]
        omega

theorem updateLinked_count {k : LinkedKind} {treeId : Id}
    {items : List SyncLinkedUpdate} {db : DB} {c : Nat} {out : DB × Nat}
    (h : updateLinked k treeId items db c = .ok out) :
    out.2 = c + items.length := by
  induction items generalizing db c with
  | nil =>
    simp only [updateLinked] at h
    have := (Except.ok.injEq _ _).mp h
    subst this
    simp
  | cons item rest ih =>
    simp only [updateLinked] at h
    split at h
    · cases h
    · split at h
      · cases h
      · have := ih h
        simp only [List.length_cons]
        omega

theorem phaseUpdates_counts {body : SyncRequest} {treeId : Id} {db : DB}
    {resp : SyncResponse} {out : DB × SyncResponse}
    (h : phaseUpdates body treeId db resp = .ok out) :
    out.2.personsUpdated = resp.personsUpdated + body.personsUpdate.length ∧
    out.2.relationshipsUpdated =
      resp.relationshipsUpdated + body.relationshipsUpdate.length ∧
    out.2.eventsUpdated = resp.eventsUpdated + body.eventsUpdate.length ∧
    out.2.classificationsUpdated =
      resp.classificationsUpdated + body.classificationsUpdate.length ∧
    out.2.patternsUpdated =
      resp.patternsUpdated + body.patternsUpdate.length := by
  simp only [phaseUpdates] at h
  split at h
  · cases h
  · rename_i pu hpu
    split at h
    · cases h
    · rename_i ru hru
      split at h
      · cases h
      · rename_i eu heu
        split at h
        · cases h
        · rename_i cu hcu
          split at h
          · cases h
          · rename_i patu hpatu
            have := (Except.ok.injEq _ _).mp h
            subst this
            have h1 := updatePersons_count hpu
            have h2 := updateRelationships_count hru
            have h3 := updateLinked_count heu
            have h4 := updateLinked_count hcu
            have h5 := updateLinked_count hpatu
            exact ⟨by simp only []; omega, by simp only []; omega,
              by simp only []; omega, by simp only []; omega,
              by simp only []; omega⟩

theorem rowKeys_append [TreeRow α] (a b : List α) :
    rowKeys (a ++ b) = rowKeys a ++ rowKeys b := by
  simp [rowKeys]

theorem createEncryptedEntities_ids_length {ρ β : Type}
    (mk : Id → Id → String → ρ) (getId : β → Option Id)
    (getData : β → String) (treeId : Id) (items : List β) (gen : Nat) :
    (createEncryptedEntities mk getId getData treeId items gen).2.1.length =
      items.length := by
  induction items generalizing gen with
  | nil => rfl
  | cons item rest ih =>
    simp only [createEncryptedEntities, List.length_cons]
    rw [ih]

theorem createRelationships_ids_length (treeId : Id)
    (items : List SyncRelationshipCreate) (gen : Nat) :
    (createRelationships treeId items gen).2.1.length = items.length := by
  induction items generalizing gen with
  | nil => rfl
  | cons item rest ih =>
    simp only [createRelationships, List.length_cons]
    rw [ih]

theorem createEncryptedEntities_ids_keys {ρ β : Type} [TreeRow ρ]
    (mk : Id → Id → String → ρ) (getId : β → Option Id)
    (getData : β → String)
    (hmk : ∀ (i t : Id) (d : String),
      TreeRow.rowId (mk i t d) = i ∧ TreeRow.rowTreeId (mk i t d) = t)
    (treeId : Id) (items : List β) (gen : Nat) :
    ∀ i ∈ (createEncryptedEntities mk getId getData treeId items gen).2.1,
      (i, treeId) ∈
        rowKeys (createEncryptedEntities mk getId getData treeId
          items gen).1 := by
  induction items generalizing gen with
  | nil =>
    intro i hi
    simp [createEncryptedEntities] at hi
  | cons item rest ih =>
    intro i hi
    simp only [createEncryptedEntities, List.mem_cons] at hi
    simp only [createEncryptedEntities, rowKeys, List.map_cons,
      List.mem_cons]
    rcases hi with rfl | hi
    · exact Or.inl (by rw [(hmk _ _ _).1, (hmk _ _ _).2])
    · exact Or.inr (ih _ i hi)

theorem updatePersons_keys {treeId : Id} {items : List SyncPersonUpdate}
    {db : DB} {c : Nat} {out : DB × Nat}
    (h : updatePersons treeId items db c = .ok out) :
    rowKeys out.1.persons = rowKeys db.persons := by
  induction items generalizing db c with
  | nil =>
    simp only [updatePersons] at h
    have := (Except.ok.injEq _ _).mp h
    subst this
    rfl
  | cons item rest ih =>
    simp only [updatePersons] at h
    split at h
    · cases h
    · exact (ih h).trans (rowKeys_modifyP (matchRow item.id treeId)
        (fun p : PersonRow => { p with encryptedData := item.encryptedData })
        (fun r => ⟨rfl, rfl⟩) db.persons)

theorem phaseUpdates_persons_keys {body : SyncRequest} {treeId : Id}
    {db : DB} {resp : SyncResponse} {out : DB × SyncResponse}
    (h : phaseUpdates body treeId db resp = .ok out) :
    rowKeys out.1.persons = rowKeys db.persons := by
  simp only [phaseUpdates] at h
  split at h
  · cases h
  · rename_i pu hpu
    split at h
    · cases h
    · rename_i ru hru
      split at h
      · cases h
      · rename_i eu heu
        split at h
        · cases h
        · rename_i cu hcu
          split at h
          · cases h
          · rename_i patu hpatu
            have := (Except.ok.injEq _ _).mp h
            subst this
            have e1 : patu.1.persons = cu.1.persons :=
              updateLinked_preserves (fun d => d.persons)
                (fun _ _ => rfl) (fun _ _ => rfl) _ hpatu
            have e2 : cu.1.persons = eu.1.persons :=
              updateLinked_preserves (fun d => d.persons)
                (fun _ _ => rfl) (fun _ _ => rfl) _ hcu
            have e3 : eu.1.persons = ru.1.persons :=
              updateLinked_preserves (fun d => d.persons)
                (fun _ _ => rfl) (fun _ _ => rfl) _ heu
            have e4 : ru.1.persons = pu.1.persons :=
              updateRelationships_preserves (fun d => d.persons)
                (fun _ _ => rfl) _ hru
            calc rowKeys patu.1.persons
                = rowKeys pu.1.persons := by rw [e1, e2, e3, e4]
              _ = rowKeys db.persons := updatePersons_keys hpu

theorem phaseCreates_ok_detail {body : SyncRequest} {treeId : Id}
    {gen : Nat} {db : DB} {resp : SyncResponse}
    {out : DB × SyncResponse × Nat}
    (h : phaseCreates body treeId gen db resp = .ok out) :
    out.2.1.personsUpdated = resp.personsUpdated ∧
    out.2.1.relationshipsUpdated = resp.relationshipsUpdated ∧
    out.2.1.eventsUpdated = resp.eventsUpdated ∧
    out.2.1.classificationsUpdated = resp.classificationsUpdated ∧
    out.2.1.patternsUpdated = resp.patternsUpdated ∧
    out.2.1.personsCreated.length = body.personsCreate.length ∧
    out.2.1.relationshipsCreated.length =
      body.relationshipsCreate.length ∧
    out.2.1.eventsCreated.length = body.eventsCreate.length ∧
    out.2.1.classificationsCreated.length =
      body.classificationsCreate.length ∧
    out.2.1.patternsCreated.length = body.patternsCreate.length ∧
    (∀ i ∈ out.2.1.personsCreated,
      (i, treeId) ∈ rowKeys out.1.persons) := by
  simp only [phaseCreates] at h
  split at h
  · cases h
  · have := (Except.ok.injEq _ _).mp h
    subst this
    refine ⟨rfl, rfl, rfl, rfl, rfl, ?_, ?_, ?_, ?_, ?_, ?_⟩
    · exact createEncryptedEntities_ids_length _ _ _ treeId
        body.personsCreate gen
    · exact createRelationships_ids_length treeId
        body.relationshipsCreate _
    · exact createEncryptedEntities_ids_length _ _ _ treeId
        body.eventsCreate _
    · exact createEncryptedEntities_ids_length _ _ _ treeId
        body.classificationsCreate _
    · exact createEncryptedEntities_ids_length _ _ _ treeId
        body.patternsCreate _
    · intro i hi
      have hkey := createEncryptedEntities_ids_keys
        (fun i t d => ({ id := i, treeId := t, encryptedData := d } :
          PersonRow))
        (fun item => item.id) (fun item => item.encryptedData)
        (fun i t d => ⟨rfl, rfl⟩) treeId body.personsCreate gen i hi
      show (i, treeId) ∈ rowKeys (db.persons ++
        (createEncryptedEntities
          (fun i t d => ({ id := i, treeId := t, encryptedData := d } :
            PersonRow))
          (fun item => item.id) (fun item => item.encryptedData)
          treeId body.personsCreate gen).1)
      rw [rowKeys_append]
      exact List.mem_append.mpr (Or.inr hkey)

/-- C1 (counterexample): the program violates "on success all requested
operations are applied": a 200 batch that mixes a person create with a
turning-point create applies the person — the new row (10, 0, "a") is in
the committed store — while the turning-point create, a requested operation
of a nonempty list, is silently dropped (no turning-point row,
`turning_points_created = []`).  The caller observes partial application of
a successful batch. -/
theorem sync_mixed_batch_partially_applied :
    (syncTree
      { personsCreate := [{ id := some 10, encryptedData := "a" }],
        turningPointsCreate := [{ personIds := [1], encryptedData := "tp" }] }
      0 100 sampleDB).result = .ok { personsCreated := [10] } ∧
    (⟨10, 0, "a"⟩ : PersonRow) ∈
      (syncTree
        { personsCreate := [{ id := some 10, encryptedData := "a" }],
          turningPointsCreate :=
            [{ personIds := [1], encryptedData := "tp" }] }
        0 100 sampleDB).db.persons ∧
    (syncTree
      { personsCreate := [{ id := some 10, encryptedData := "a" }],
        turningPointsCreate := [{ personIds := [1], encryptedData := "tp" }] }
      0 100 sampleDB).db.turningPoints = sampleDB.turningPoints ∧
    ({ personsCreated := [10] } : SyncResponse).turningPointsCreated = [] ∧
    [({ personIds := [1], encryptedData := "tp" } : SyncLinkedCreate)] ≠
      [] := by
  decide

/-- C1 (amended): any failure at any phase rolls the whole transaction
back — the observable store is exactly the store the request started from,
so no mutation from any phase is persisted.  On success, every requested
operation of the kinds the router processes is applied: each per-kind
updated count equals the full length of that kind's update list (every
update item was applied — a failure anywhere would have aborted), each
created-id list covers its whole create list, and every reported created
person persists as a row of the target tree in the committed store.
Turning-point operations, however, are dropped from a successful batch
(their response fields stay empty/zero and the turning-point table is
untouched), so a mixed batch is partially applied — see the
counterexample.  (LifeEvent operations cannot be expressed at all.) -/
theorem sync_rollback_and_full_application (body : SyncRequest)
    (treeId : Id) (gen : Nat) (db : DB) :
    (∀ e, (syncTree body treeId gen db).result = .error e →
      (syncTree body treeId gen db).db = db) ∧
    (∀ resp, (syncTree body treeId gen db).result = .ok resp →
      resp.personsUpdated = body.personsUpdate.length ∧
      resp.relationshipsUpdated = body.relationshipsUpdate.length ∧
      resp.eventsUpdated = body.eventsUpdate.length ∧
      resp.classificationsUpdated = body.classificationsUpdate.length ∧
      resp.patternsUpdated = body.patternsUpdate.length ∧
      resp.personsCreated.length = body.personsCreate.length ∧
      resp.relationshipsCreated.length = body.relationshipsCreate.length ∧
      resp.eventsCreated.length = body.eventsCreate.length ∧
      resp.classificationsCreated.length =
        body.classificationsCreate.length ∧
      resp.patternsCreated.length = body.patternsCreate.length ∧
      (∀ i ∈ resp.personsCreated,
        (i, treeId) ∈ rowKeys (syncTree body treeId gen db).db.persons) ∧
      resp.turningPointsCreated = [] ∧
      resp.turningPointsUpdated = 0 ∧
      resp.turningPointsDeleted = 0 ∧
      (syncTree body treeId gen db).db.turningPoints = db.turningPoints) := by
  constructor
  · intro e he
    rcases h : syncTransaction body treeId gen db with e2 | res
    · simp [syncTree, h]
    · simp [syncTree, h] at he
  · intro resp hresp
    rcases htx : syncTransaction body treeId gen db with e | res
    · simp [syncTree, htx] at hresp
    · rcases syncTransaction_ok_destruct htx with ⟨c, u, hc, hu, hres⟩
      subst hres
      simp only [syncTree, htx] at hresp ⊢
      have hr : u.2 = resp := (Except.ok.injEq _ _).mp hresp
      subst hr
      have hcd := phaseCreates_ok_detail hc
      have hcs := phaseCreates_ok_resp hc
      have hus := phaseUpdates_ok_resp hu
      have huc := phaseUpdates_counts hu
      have hkeys := phaseUpdates_persons_keys hu
      have htp : u.1.turningPoints = c.1.turningPoints :=
        phaseUpdates_preserves (fun d => d.turningPoints)
          (fun _ _ => rfl) (fun _ _ => rfl) (fun _ _ => rfl)
          (fun _ _ => rfl) (fun _ _ => rfl) (fun _ _ => rfl)
          (fun _ _ => rfl) (fun _ _ => rfl) hu
      have hctp : c.1.turningPoints =
          (phaseDeletes body treeId db {}).1.turningPoints := by
        simp only [phaseCreates] at hc
        split at hc
        · cases hc
        · have := (Except.ok.injEq _ _).mp hc
          subst this
          rfl
      refine ⟨?_, ?_, ?_, ?_, ?_, ?_, ?_, ?_, ?_, ?_, ?_, ?_, ?_, ?_, ?_⟩
      · rw [huc.1, hcd.1]
        simp [phaseDeletes]
      · rw [huc.2.1, hcd.2.1]
        simp [phaseDeletes]
      · rw [huc.2.2.1, hcd.2.2.1]
        simp [phaseDeletes]
      · rw [huc.2.2.2.1, hcd.2.2.2.1]
        simp [phaseDeletes]
      · rw [huc.2.2.2.2, hcd.2.2.2.2.1]
        simp [phaseDeletes]
      · rw [hus.2.2.2.2.2.2.2.2.1]
        exact hcd.2.2.2.2.2.1
      · rw [hus.2.2.2.2.2.2.2.2.2.1]
        exact hcd.2.2.2.2.2.2.1
      · rw [hus.2.2.2.2.2.2.2.2.2.2.1]
        exact hcd.2.2.2.2.2.2.2.1
      · rw [hus.2.2.2.2.2.2.2.2.2.2.2.1]
        exact hcd.2.2.2.2.2.2.2.2.1
      · rw [hus.2.2.2.2.2.2.2.2.2.2.2.2]
        exact hcd.2.2.2.2.2.2.2.2.2.1
      · intro i hi
        rw [hus.2.2.2.2.2.2.2.2.1] at hi
        rw [hkeys]
        exact hcd.2.2.2.2.2.2.2.2.2.2 i hi
      · rw [hus.2.2.2.2.2.2.1, hcs.2.2.2.2.2.2.1]
        rfl
      · rw [hus.2.2.2.2.2.2.2.1, hcs.2.2.2.2.2.2.2]
        rfl
      · rw [hus.2.2.2.2.2.1, hcs.2.2.2.2.2.1]
        rfl
      · rw [htp, hctp]
        rfl

/-- Witness for `sync_rollback_and_full_application`: a successful batch
against `sampleDB` (one person create, one person update) reports
`persons_updated = 1` — the full update list applied — while a batch whose
delete succeeds but whose update then hits the unknown person 42 is rolled
back completely, the delete included. -/
theorem sync_rollback_and_full_application_witness :
    ({ personsCreated := [100], personsUpdated := 1 } :
        SyncResponse).personsUpdated =
      [({ id := 1, encryptedData := "x" } : SyncPersonUpdate)].length ∧
    (syncTree
      { personsDelete := [⟨1⟩],
        personsUpdate := [{ id := 42, encryptedData := "x" }] }
      0 100 sampleDB).db = sampleDB :=
  ⟨((sync_rollback_and_full_application
      { personsCreate := [{ encryptedData := "n" }],
        personsUpdate := [{ id := 1, encryptedData := "x" }] }
      0 100 sampleDB).2
      { personsCreated := [100], personsUpdated := 1 } (by decide)).1,
   (sync_rollback_and_full_application
      { personsDelete := [⟨1⟩],
        personsUpdate := [{ id := 42, encryptedData := "x" }] }
      0 100 sampleDB).1
     (.notFound "Person" 42) (by decide)⟩

end Traumabomen
